import Mathlib

/-!
# COTP: a shallow embedding of `cotp.c`

The C functions of `cotp.c` are rendered as pure Lean functions.

* A `char` buffer is a `List Nat` holding one byte pattern (`0..255`) per cell.  A read or a
  write outside the buffer is undefined behaviour in C and is the value `none` here, so a result
  `some _` says that every access of the run was in bounds.
* A `char*` argument that may be `NULL` is an `Option (List Nat)`.
* A function that writes through a pointer returns the new contents of the buffer next to its
  `int` result.
* `int` is 32 bits wide and `size_t` 64 bits wide; the conversions are `toInt32` and `toSizeT`.
* The NUL-terminated secret is the list of its characters: the memory read by the decoder is
  `base32_secret ++ [0]`.
* `calloc` of a representable size succeeds and yields zero bytes.
-/

namespace COTP

/-! ## Machine integers -/

/-- Conversion to `int`: the value modulo `2^32`, read as two's complement. -/
def toInt32 (x : Int) : Int :=
  if 2147483648 ≤ x % 4294967296 then x % 4294967296 - 4294967296 else x % 4294967296

/-- Conversion to `size_t`: the value modulo `2^64`. -/
def toSizeT (x : Int) : Nat := (x % 18446744073709551616).toNat

/-! ## Buffers -/

/-- Store `v` converted to `char` (its low 8 bits) into `buf[i]`. -/
def writeByte (buf : List Nat) (i : Nat) (v : Nat) : Option (List Nat) :=
  if i < buf.length then some (buf.set i (v % 256)) else none

/-- Read `buf[i]` for an `int` index. -/
def readAt (buf : List Nat) (i : Int) : Option Nat :=
  if i < 0 then none else buf[i.toNat]?

/-- Read character `i` of the NUL-terminated string whose characters are `secret`. -/
def readSecret (secret : List Nat) (i : Nat) : Option Nat :=
  (secret ++ [0])[i]?

/-- The C expression `-offset > 0 ? n >> -offset : n << offset`. -/
def shiftBy (n : Nat) (offset : Int) : Nat :=
  if -offset > 0 then n >>> (-offset).toNat else n <<< offset.toNat

/-! ## Configuration -/

/-- The fields of `OTPData` that the codec reads (`digest` and `method` are only stored by
the constructors).  `base32_secret` holds the characters before the terminating NUL, and
`bits`, `digits` and `interval` are `size_t` values.  The hash capability `algo` receives
the decoded-secret buffer and the counter buffer; `none` is a return value of `0`, and
`some d` is a non-zero return value after the bytes `d` were stored at the start of the
digest buffer. -/
structure OTPData where
  base32_secret : List Nat
  bits : Nat
  algo : List Nat → List Nat → Option (List Nat)
  digits : Nat
  interval : Nat

/-! ## Base32 decoder -/

/-- The two conditional assignments to `n` for the character `c`:
`if (c >= 'A' && c <= 'Z') n = c - 'A'; if (c >= '2' && c <= '7') n = 26 + c - '2';`. -/
def symbol (c : Nat) (n : Int) : Int :=
  let n1 : Int := if 65 ≤ c ∧ c ≤ 90 then (c : Int) - 65 else n
  if 50 ≤ c ∧ c ≤ 55 then 26 + (c : Int) - 50 else n1

/-- The two stores of one inner iteration:
`out_str[i*5+octet] |= -offset > 0 ? n >> -offset : n << offset;` and, when `offset < 0`,
`out_str[i*5+octet+1] = -(8 + offset) > 0 ? n >> -(8 + offset) : n << (8 + offset);`. -/
def otp_byte_secret_store (i block : Nat) (n : Int) (out : List Nat) : Option (List Nat) :=
  let offset : Int := 3 - ((5 * block % 8 : Nat) : Int)
  let octet : Nat := block * 5 / 8
  match out[i * 5 + octet]? with
  | none => none
  | some old =>
    match writeByte out (i * 5 + octet) (old ||| shiftBy n.toNat offset) with
    | none => none
    | some out1 =>
      if offset < 0 then writeByte out1 (i * 5 + octet + 1) (shiftBy n.toNat (8 + offset))
      else some out1

/-- The inner loop `for (int block=0; block<8; block++)` of `otp_byte_secret` for outer
index `i`, with `k` iterations left (`block = 8 - k`).  The result is the value of `n`
after the loop and the buffer. -/
def otp_byte_secret_block (secret : List Nat) (i : Nat) :
    Nat → Int → List Nat → Option (Int × List Nat)
  | 0, n, out => some (n, out)
  | k + 1, n, out =>
    let block : Nat := 8 - (k + 1)
    match readSecret secret (i * 8 + block) with
    | none => none
    | some c =>
      if symbol c n < 0 then some (((block * 5 / 8 : Nat) : Int), out)
      else
        match otp_byte_secret_store i block (symbol c n) out with
        | none => none
        | some out1 => otp_byte_secret_block secret i k (symbol c n) out1

/-- The outer loop `for (size_t i=0; ; i++)` of `otp_byte_secret`, run for at most `fuel`
iterations starting at index `i`; `none` when a memory access is out of bounds or the fuel is
used up. -/
def otp_byte_secret_loop (secret : List Nat) : Nat → Nat → List Nat → Option (List Nat)
  | 0, _, _ => none
  | fuel + 1, i, out =>
    match writeByte out (i * 5) 0 with
    | none => none
    | some out1 =>
      match otp_byte_secret_block secret i 8 (-1) out1 with
      | none => none
      | some (n, out2) =>
        if n < 5 then some out2 else otp_byte_secret_loop secret fuel (i + 1) out2

/-- The function `otp_byte_secret`.  The loop gets `length / 8 + 1` iterations: one more
would start by reading past the terminator, so that more fuel never changes the result
(`otp_byte_secret_loop_fuel`). -/
def otp_byte_secret (data : OTPData) (size : Nat) (out_str : Option (List Nat)) :
    Option (Int × Option (List Nat)) :=
  match out_str with
  | none => some (0, none)
  | some out =>
    if size % 8 ≠ 0 then some (0, some out)
    else
      match otp_byte_secret_loop data.base32_secret
          (data.base32_secret.length / 8 + 1) 0 out with
      | none => none
      | some out1 => some (1, some out1)

/-! ## Counter encoder -/

/-- The function `otp_int_to_bytestring`: only cells 4..7 are written, each with the low
8 bits of the shifted value. -/
def otp_int_to_bytestring (integer : Int) (out_str : Option (List Nat)) :
    Option (Int × Option (List Nat)) :=
  match out_str with
  | none => some (0, none)
  | some out =>
    match writeByte out 4 ((integer >>> (24 : Nat)) % 256).toNat with
    | none => none
    | some out1 =>
      match writeByte out1 (4 + 1) ((integer >>> (16 : Nat)) % 256).toNat with
      | none => none
      | some out2 =>
        match writeByte out2 (4 + 2) ((integer >>> (8 : Nat)) % 256).toNat with
        | none => none
        | some out3 =>
          match writeByte out3 (4 + 3) (integer % 256).toNat with
          | none => none
          | some out4 => some (1, some out4)

/-! ## Decimal text (the `sprintf` conversions of the C library) -/

/-- Decimal digits of `n` as character codes, least significant first; `fuel` bounds the
number of digits. -/
def decimalRev : Nat → Nat → List Nat
  | 0, _ => []
  | fuel + 1, n => (48 + n % 10) :: (if n / 10 = 0 then [] else decimalRev fuel (n / 10))

/-- The text of `%u` (and of the Microsoft `%Iu` for a `size_t`). -/
def sprintf_u (n : Nat) : List Nat := (decimalRev (n + 1) n).reverse

/-- The text of `%d`. -/
def sprintf_d (k : Int) : List Nat :=
  if k < 0 then 45 :: sprintf_u k.natAbs else sprintf_u k.toNat

/-- The text of `%0Nd` for a field width `N`: the sign, then zeros up to the width, then
the digits. -/
def sprintf_0Nd (width : Nat) (k : Int) : List Nat :=
  if k < 0 then
    45 :: (List.replicate (width - 1 - (sprintf_u k.natAbs).length) 48 ++ sprintf_u k.natAbs)
  else List.replicate (width - (sprintf_u k.toNat).length) 48 ++ sprintf_u k.toNat

/-- Store a text and its terminating NUL at the start of a buffer. -/
def writeStr (buf : List Nat) (text : List Nat) : Option (List Nat) :=
  if text.length + 1 ≤ buf.length then some (text ++ 0 :: buf.drop (text.length + 1))
  else none

/-! ## Code generation -/

/-- The dynamic truncation of `otp_generate`: the offset from the low nibble of
`hmac[bit_size-1]`, then the four masked bytes joined by shifts and ors. -/
def truncate (hmac : List Nat) (bit_size : Int) : Option Nat :=
  match readAt hmac (bit_size - 1) with
  | none => none
  | some last =>
    let offset : Nat := last &&& 0xF
    match hmac[offset]?, hmac[offset + 1]?, hmac[offset + 2]?, hmac[offset + 3]? with
    | some b0, some b1, some b2, some b3 =>
      some ((b0 &&& 0x7F) <<< 24 ||| (b1 &&& 0xFF) <<< 16 ||| (b2 &&& 0xFF) <<< 8
        ||| (b3 &&& 0xFF))
    | _, _, _, _ => none

/-- The local `bit_size` of `otp_generate`: `int bit_size = data->bits/8;`. -/
def bit_size (data : OTPData) : Int := toInt32 ((data.bits / 8 : Nat) : Int)

/-- The local `desired_secret_len` of `otp_generate`, with `secret_len = strlen(secret)`. -/
def desired_secret_len (data : OTPData) : Nat := data.base32_secret.length / 8 * 5

/-- The statements of `otp_generate` between the `goto exit` test and the label `exit`,
for the digest buffer `hmac`: truncation, `code %= (int)pow(10, data->digits)` and the
`sprintf` with the format `%0<digits>d`.  The value `(int)pow(10, digits)` is `10^digits`
for `digits ≤ 9` and is not representable above. -/
def otp_generate_code (data : OTPData) (hmac : List Nat) (out_str : Option (List Nat)) :
    Option (Int × Option (List Nat)) :=
  match truncate hmac (bit_size data) with
  | none => none
  | some code0 =>
    if 10 ≤ data.digits then none
    else
      match out_str with
      | none => some ((code0 : Int) % ((10 ^ data.digits : Nat) : Int), none)
      | some out =>
        match writeStr out
            (sprintf_0Nd data.digits ((code0 : Int) % ((10 ^ data.digits : Nat) : Int))) with
        | none => none
        | some out1 => some ((code0 : Int) % ((10 ^ data.digits : Nat) : Int), some out1)

/-- The argument `bit_size+1` of `hmac = calloc(bit_size+1, sizeof(char))`: the sum is
taken in `int`, so it wraps to `-2^31` when `bit_size` is `2^31 - 1`. -/
def hmac_size (data : OTPData) : Int := toInt32 (bit_size data + 1)

/-- The test `if (byte_secret == 0 || ... ) goto exit;` of `otp_generate`, evaluated left
to right: `some none` when the jump to `exit` is taken, `some (some hmac)` with the digest
buffer otherwise.  The three buffers are the zero bytes of `calloc`; `calloc` of a negative
`int` size (a size above `2^63`) returns `NULL`, which is the case of `hmac` when the `int`
sum `bit_size+1` has wrapped.  The digest returned by the hash lies at the start of the
`bit_size+1` bytes of `hmac`. -/
def otp_generate_hmac (data : OTPData) (input : Int) : Option (Option (List Nat)) :=
  if hmac_size data < 0 then some none
  else
    match otp_int_to_bytestring input (some (List.replicate (8 + 1) 0)) with
    | none => none
    | some (_, none) => some none
    | some (r1, some byte_string) =>
      if r1 = 0 then some none
      else
        match otp_byte_secret data data.base32_secret.length
            (some (List.replicate (desired_secret_len data + 1) 0)) with
        | none => none
        | some (_, none) => some none
        | some (r2, some byte_secret) =>
          if r2 = 0 then some none
          else
            match data.algo byte_secret byte_string with
            | none => some none
            | some digest =>
              if (hmac_size data).toNat < digest.length then none
              else
                some (some
                  (digest ++ List.replicate ((hmac_size data).toNat - digest.length) 0))

/-- The function `otp_generate`: `code` is still 0 on the `exit` path, where `out_str` is
not written. -/
def otp_generate (data : OTPData) (input : Int) (out_str : Option (List Nat)) :
    Option (Int × Option (List Nat)) :=
  if input < 0 then some (0, out_str)
  else
    match otp_generate_hmac data input with
    | none => none
    | some none => some (0, out_str)
    | some (some hmac) => otp_generate_code data hmac out_str

/-! ## HOTP -/

/-- The function `hotp_at`: the `size_t` counter is converted to `int`. -/
def hotp_at (data : OTPData) (counter : Nat) (out_str : Option (List Nat)) :
    Option (Int × Option (List Nat)) :=
  otp_generate data (toInt32 counter) out_str

/-- The loop `for (size_t i=0; i<8; i++) if (key[i] != str[i]) return 0;` followed by
`return 1`, with `k` iterations left. -/
def compare_loop (key str : List Nat) : Nat → Option Int
  | 0 => some 1
  | k + 1 =>
    match key[8 - (k + 1)]?, str[8 - (k + 1)]? with
    | some a, some b => if a ≠ b then some 0 else compare_loop key str k
    | _, _ => none

/-- The function `hotp_compares`: the 8-byte buffer first receives the decimal text of the
counter and is then overwritten by the generated code. -/
def hotp_compares (data : OTPData) (key : List Nat) (counter : Nat) : Option Int :=
  match writeStr (List.replicate 8 0) (sprintf_u counter) with
  | none => none
  | some cnt_str =>
    match hotp_at data counter (some cnt_str) with
    | none => none
    | some (_, none) => none
    | some (r, some cnt_str1) => if r = 0 then some 0 else compare_loop key cnt_str1 8

/-- The function `hotp_comparei`. -/
def hotp_comparei (data : OTPData) (key : Int) (counter : Nat) : Option Int :=
  match writeStr (List.replicate 8 0) (sprintf_d key) with
  | none => none
  | some key_str => hotp_compares data key_str counter

/-- The function `hotp_verify`. -/
def hotp_verify (data : OTPData) (key : Int) (counter : Nat) : Option Int :=
  hotp_comparei data key counter

/-! ## TOTP -/

/-- The function `totp_timecode`: the quotient is computed in `size_t` and converted to
`int`. -/
def totp_timecode (data : OTPData) (for_time : Nat) : Int :=
  if data.interval ≤ 0 then 0 else toInt32 ((for_time / data.interval : Nat) : Int)

/-- The argument `totp_timecode(data, for_time) + counter_offset` of `totp_at`: the sum is
computed in `size_t` and converted to the `int` parameter of `otp_generate`. -/
def totp_counter (data : OTPData) (for_time : Nat) (counter_offset : Nat) : Int :=
  toInt32 (((toSizeT (totp_timecode data for_time) + counter_offset)
    % 18446744073709551616 : Nat) : Int)

/-- The function `totp_at`. -/
def totp_at (data : OTPData) (for_time : Nat) (counter_offset : Nat)
    (out_str : Option (List Nat)) : Option (Int × Option (List Nat)) :=
  otp_generate data (totp_counter data for_time counter_offset) out_str

/-- The function `totp_compares`. -/
def totp_compares (data : OTPData) (key : List Nat) (increment : Nat) (for_time : Nat) :
    Option Int :=
  match totp_at data for_time increment (some (List.replicate 8 0)) with
  | none => none
  | some (_, none) => none
  | some (r, some time_str) => if r = 0 then some 0 else compare_loop key time_str 8

/-- The function `totp_comparei`. -/
def totp_comparei (data : OTPData) (key : Int) (increment : Nat) (for_time : Nat) :
    Option Int :=
  match writeStr (List.replicate 8 0) (sprintf_d key) with
  | none => none
  | some key_str => totp_compares data key_str increment for_time

/-- The loop `for (int i=-valid_window; i<valid_window; i++)` of `totp_verify` followed by
`return 0`, with `k` iterations left (`i = valid_window - k`). -/
def totp_verify_loop (data : OTPData) (key : Int) (for_time : Nat) (valid_window : Int) :
    Nat → Option Int
  | 0 => some 0
  | k + 1 =>
    match totp_comparei data key (toSizeT (valid_window - ((k + 1 : Nat) : Int))) for_time with
    | none => none
    | some cmp =>
      if cmp = 1 then some cmp else totp_verify_loop data key for_time valid_window k

/-- The function `totp_verify`. -/
def totp_verify (data : OTPData) (key : Int) (for_time : Nat) (valid_window : Int) :
    Option Int :=
  if valid_window < 0 then some 0
  else if valid_window > 0 then
    totp_verify_loop data key for_time valid_window (2 * valid_window).toNat
  else totp_comparei data key (toSizeT 0) for_time

/-- The function `totp_valid_until`: `unsigned int` result of a `size_t` computation. -/
def totp_valid_until (data : OTPData) (for_time : Nat) (valid_window : Nat) : Nat :=
  (for_time + data.interval * valid_window) % 4294967296

/-! ## Specification side: RFC 4648 Base32 -/

/-- The value of a Base32 symbol: `A-Z` are 0..25 and `2-7` are 26..31. -/
def base32_value (c : Nat) : Option Nat :=
  if 65 ≤ c ∧ c ≤ 90 then some (c - 65)
  else if 50 ≤ c ∧ c ≤ 55 then some (c - 50 + 26)
  else none

/-- The 5 bytes of the 40-bit group that packs eight 5-bit values MSB-first. -/
def rfc4648_block (v0 v1 v2 v3 v4 v5 v6 v7 : Nat) : List Nat :=
  let g : Nat := ((((((v0 * 32 + v1) * 32 + v2) * 32 + v3) * 32 + v4) * 32 + v5) * 32 + v6)
    * 32 + v7
  [g / 4294967296 % 256, g / 16777216 % 256, g / 65536 % 256, g / 256 % 256, g % 256]

/-- The RFC 4648 decoding of a text made of full 8-symbol blocks; `none` when a symbol is
outside the alphabet or the length is not a multiple of 8. -/
def rfc4648_decode : List Nat → Option (List Nat)
  | [] => some []
  | c0 :: c1 :: c2 :: c3 :: c4 :: c5 :: c6 :: c7 :: rest =>
    match base32_value c0, base32_value c1, base32_value c2, base32_value c3,
      base32_value c4, base32_value c5, base32_value c6, base32_value c7,
      rfc4648_decode rest with
    | some v0, some v1, some v2, some v3, some v4, some v5, some v6, some v7, some bytes =>
      some (rfc4648_block v0 v1 v2 v3 v4 v5 v6 v7 ++ bytes)
    | _, _, _, _, _, _, _, _, _ => none
  | _ => none

/-- The 8-byte big-endian encoding of a counter. -/
def big_endian_8 (c : Nat) : List Nat :=
  [c / 72057594037927936 % 256, c / 281474976710656 % 256, c / 1099511627776 % 256,
   c / 4294967296 % 256, c / 16777216 % 256, c / 65536 % 256, c / 256 % 256, c % 256]

/-- The dynamic truncation of RFC 4226 on a digest `d` of `n` bytes: with the offset
`o = d[n-1] & 0x0F`, the number `(d[o] & 0x7F)*2^24 + d[o+1]*2^16 + d[o+2]*2^8 + d[o+3]`. -/
def dynamic_truncation (d : List Nat) (n : Nat) : Nat :=
  (d.getD (d.getD (n - 1) 0 &&& 0x0F) 0 &&& 0x7F) * 2 ^ 24
    + d.getD ((d.getD (n - 1) 0 &&& 0x0F) + 1) 0 * 2 ^ 16
    + d.getD ((d.getD (n - 1) 0 &&& 0x0F) + 2) 0 * 2 ^ 8
    + d.getD ((d.getD (n - 1) 0 &&& 0x0F) + 3) 0

/-- The number written by a decimal text. -/
def decimal_value (text : List Nat) : Nat :=
  text.foldl (fun acc c => acc * 10 + (c - 48)) 0

/-! ## Concrete inputs -/

/-- The character codes of a text. -/
def bytesOf (s : String) : List Nat := s.toList.map Char.toNat

/-- A hash capability that fails on every call. -/
def failing_hash : List Nat → List Nat → Option (List Nat) := fun _ _ => none

/-- HMAC-SHA-1 under the key `12345678901234567890`, tabulated for the counters 0, 1, 2
and 30 (the first three digests are those of RFC 4226, Appendix D); it reports failure on
any other call. -/
def hmac_sha1_table (key msg : List Nat) : Option (List Nat) :=
  if key = bytesOf "12345678901234567890" ++ [0] then
    if msg = [0, 0, 0, 0, 0, 0, 0, 0, 0] then
      some [0xcc, 0x93, 0xcf, 0x18, 0x50, 0x8d, 0x94, 0x93, 0x4c, 0x64,
            0xb6, 0x5d, 0x8b, 0xa7, 0x66, 0x7f, 0xb7, 0xcd, 0xe4, 0xb0]
    else if msg = [0, 0, 0, 0, 0, 0, 0, 1, 0] then
      some [0x75, 0xa4, 0x8a, 0x19, 0xd4, 0xcb, 0xe1, 0x00, 0x64, 0x4e,
            0x8a, 0xc1, 0x39, 0x7e, 0xea, 0x74, 0x7a, 0x2d, 0x33, 0xab]
    else if msg = [0, 0, 0, 0, 0, 0, 0, 2, 0] then
      some [0x0b, 0xac, 0xb7, 0xfa, 0x08, 0x2f, 0xef, 0x30, 0x78, 0x22,
            0x11, 0x93, 0x8b, 0xc1, 0xc5, 0xe7, 0x04, 0x16, 0xff, 0x44]
    else if msg = [0, 0, 0, 0, 0, 0, 0, 30, 0] then
      some [0x54, 0x3c, 0x61, 0xf8, 0xf9, 0xae, 0xb3, 0x5f, 0x6d, 0xbc,
            0x3a, 0x68, 0x47, 0xc3, 0xfe, 0x28, 0x8c, 0xc0, 0xee, 0x4c]
    else none
  else none

/-- The configuration of the RFC 4226 test vectors: secret `12345678901234567890` in
Base32, a 160-bit digest, a 30 second interval. -/
def rfc_data (digits : Nat) : OTPData :=
  { base32_secret := bytesOf "GEZDGNBVGY3TQOJQGEZDGNBVGY3TQOJQ"
    bits := 160
    algo := hmac_sha1_table
    digits := digits
    interval := 30 }

/-- A configuration that only carries a secret. -/
def secret_data (s : String) : OTPData :=
  { base32_secret := bytesOf s, bits := 160, algo := failing_hash, digits := 6, interval := 30 }

/-- A configuration with a chosen interval (its hash fails on every call). -/
def interval_data (interval : Nat) : OTPData :=
  { base32_secret := bytesOf "GEZDGNBVGY3TQOJQ", bits := 160, algo := failing_hash,
    digits := 6, interval := interval }

/-- The contents of `byte_string` after `otp_int_to_bytestring` ran on the 9 zero bytes
that `otp_generate` allocates. -/
def counter_buffer (input : Int) : List Nat :=
  [0, 0, 0, 0, ((input >>> (24 : Nat)) % 256).toNat, ((input >>> (16 : Nat)) % 256).toNat,
   ((input >>> (8 : Nat)) % 256).toNat, (input % 256).toNat, 0]

/-! ## Decimal text: lengths, digits and values -/

theorem decimalRev_length_le : ∀ (fuel n d : Nat), n < fuel → 1 ≤ d → n < 10 ^ d →
    (decimalRev fuel n).length ≤ d := by
  intro fuel
  induction fuel with
  | zero => intro n d h; omega
  | succ f ih =>
    intro n d hf hd hn
    unfold decimalRev
    by_cases h0 : n / 10 = 0
    · simp [h0]; omega
    · simp only [h0, if_false, List.length_cons]
      have hd2 : 2 ≤ d := by
        by_contra hc
        have : d = 1 := by omega
        subst this
        simp at hn
        omega
      have hlt : n / 10 < 10 ^ (d - 1) := by
        have : 10 ^ d = 10 * 10 ^ (d - 1) := by
          rw [← pow_succ']; congr 1; omega
        rw [this] at hn
        exact Nat.div_lt_of_lt_mul hn
      have := ih (n / 10) (d - 1) (by omega) (by omega) hlt
      omega

theorem decimalRev_length_ge : ∀ (fuel n d : Nat), n < fuel → 10 ^ (d - 1) ≤ n → 1 ≤ d →
    d ≤ (decimalRev fuel n).length := by
  intro fuel
  induction fuel with
  | zero => intro n d h; omega
  | succ f ih =>
    intro n d hf hn hd
    unfold decimalRev
    by_cases h0 : n / 10 = 0
    · simp only [h0, if_true, List.length_cons, List.length_nil]
      by_contra hc
      have hd2 : 10 ^ 1 ≤ 10 ^ (d - 1) := Nat.pow_le_pow_right (by norm_num) (by omega)
      omega
    · simp only [h0, if_false, List.length_cons]
      by_cases hd1 : d = 1
      · omega
      · have hge : 10 ^ (d - 1 - 1) ≤ n / 10 := by
          have : 10 ^ (d - 1) = 10 * 10 ^ (d - 1 - 1) := by
            rw [← pow_succ']; congr 1; omega
          rw [this] at hn
          omega
        have := ih (n / 10) (d - 1) (by omega) hge (by omega)
        omega

theorem decimalRev_pos_length (n : Nat) : 1 ≤ (decimalRev (n + 1) n).length := by
  unfold decimalRev; simp

theorem decimalRev_digits : ∀ (fuel n c : Nat), c ∈ decimalRev fuel n → 48 ≤ c ∧ c ≤ 57 := by
  intro fuel
  induction fuel with
  | zero => intro n c h; simp [decimalRev] at h
  | succ f ih =>
    intro n c h
    unfold decimalRev at h
    rcases List.mem_cons.mp h with h1 | h1
    · omega
    · by_cases h0 : n / 10 = 0
      · simp [h0] at h1
      · simp only [h0, if_false] at h1
        exact ih _ _ h1

theorem foldr_decimalRev : ∀ (fuel n : Nat), n < fuel →
    (decimalRev fuel n).foldr (fun c acc => acc * 10 + (c - 48)) 0 = n := by
  intro fuel
  induction fuel with
  | zero => intro n h; omega
  | succ f ih =>
    intro n hf
    unfold decimalRev
    by_cases h0 : n / 10 = 0
    · simp [h0]; omega
    · simp only [h0, if_false, List.foldr_cons]
      rw [ih (n / 10) (by omega)]
      omega

theorem sprintf_u_length_le (n d : Nat) (hd : 1 ≤ d) (hn : n < 10 ^ d) :
    (sprintf_u n).length ≤ d := by
  unfold sprintf_u
  rw [List.length_reverse]
  exact decimalRev_length_le _ _ _ (by omega) hd hn

theorem sprintf_u_length_ge (n d : Nat) (hd : 1 ≤ d) (hn : 10 ^ (d - 1) ≤ n) :
    d ≤ (sprintf_u n).length := by
  unfold sprintf_u
  rw [List.length_reverse]
  exact decimalRev_length_ge _ _ _ (by omega) hn hd

theorem sprintf_u_length_pos (n : Nat) : 1 ≤ (sprintf_u n).length := by
  unfold sprintf_u
  rw [List.length_reverse]
  exact decimalRev_pos_length n

theorem sprintf_u_digits (n c : Nat) (h : c ∈ sprintf_u n) : 48 ≤ c ∧ c ≤ 57 := by
  unfold sprintf_u at h
  exact decimalRev_digits _ _ _ (List.mem_reverse.mp h)

theorem decimal_value_sprintf_u (n : Nat) : decimal_value (sprintf_u n) = n := by
  unfold decimal_value sprintf_u
  rw [List.foldl_reverse]
  exact foldr_decimalRev _ _ (by omega)

theorem decimal_value_zeros (z : Nat) (text : List Nat) :
    decimal_value (List.replicate z 48 ++ text) = decimal_value text := by
  unfold decimal_value
  rw [List.foldl_append]
  congr 1
  induction z with
  | zero => rfl
  | succ z ih => rw [List.replicate_succ, List.foldl_cons]; simpa using ih

theorem sprintf_0Nd_length (d : Nat) (k : Int) (hd : 1 ≤ d) (h0 : 0 ≤ k)
    (hk : k < ((10 ^ d : Nat) : Int)) : (sprintf_0Nd d k).length = d := by
  have hlt : k.toNat < 10 ^ d := by omega
  have := sprintf_u_length_le _ _ hd hlt
  unfold sprintf_0Nd
  rw [if_neg (by omega), List.length_append, List.length_replicate]
  omega

theorem sprintf_0Nd_digits (d : Nat) (k : Int) (h0 : 0 ≤ k) (c : Nat)
    (h : c ∈ sprintf_0Nd d k) : 48 ≤ c ∧ c ≤ 57 := by
  unfold sprintf_0Nd at h
  rw [if_neg (by omega)] at h
  rcases List.mem_append.mp h with h1 | h1
  · have := (List.mem_replicate.mp h1).2
    omega
  · exact sprintf_u_digits _ _ h1

theorem decimal_value_sprintf_0Nd (d : Nat) (k : Int) (h0 : 0 ≤ k) :
    (decimal_value (sprintf_0Nd d k) : Int) = k := by
  unfold sprintf_0Nd
  rw [if_neg (by omega), decimal_value_zeros, decimal_value_sprintf_u]
  omega

theorem sprintf_0Nd_eq_sprintf_d (d : Nat) (k : Int) (hd : 1 ≤ d)
    (hk : ((10 ^ (d - 1) : Nat) : Int) ≤ k) : sprintf_0Nd d k = sprintf_d k := by
  have h0 : 0 ≤ k := by
    have : (0 : Int) ≤ ((10 ^ (d - 1) : Nat) : Int) := Int.ofNat_nonneg _
    omega
  have := sprintf_u_length_ge k.toNat d hd (by omega)
  unfold sprintf_0Nd sprintf_d
  rw [if_neg (by omega), if_neg (by omega)]
  have hz : d - (sprintf_u k.toNat).length = 0 := by omega
  rw [hz]; rfl

/-! ## Buffers -/

theorem writeByte_some (buf : List Nat) (i v : Nat) (h : i < buf.length) :
    writeByte buf i v = some (buf.set i (v % 256)) := by
  unfold writeByte
  rw [if_pos h]

theorem writeByte_length (buf : List Nat) (i v : Nat) (out : List Nat)
    (h : writeByte buf i v = some out) : out.length = buf.length := by
  unfold writeByte at h
  split at h
  · cases h; simp
  · cases h

theorem readSecret_some (secret : List Nat) (i : Nat) (h : i ≤ secret.length) :
    ∃ c, readSecret secret i = some c := by
  unfold readSecret
  exact ⟨_, List.getElem?_eq_getElem (by simp; omega)⟩

theorem readSecret_length (secret : List Nat) :
    readSecret secret secret.length = some 0 := by
  unfold readSecret
  simp

/-! ## The decoder stays in bounds -/

theorem otp_byte_secret_store_defined (i block : Nat) (n : Int) (out : List Nat)
    (hb : block < 8) (hout : i * 5 + 5 ≤ out.length) :
    ∃ out1, otp_byte_secret_store i block n out = some out1 ∧ out1.length = out.length := by
  have hoct : block * 5 / 8 ≤ 4 := by omega
  unfold otp_byte_secret_store
  simp only []
  rw [List.getElem?_eq_getElem (by omega)]
  simp only []
  rw [writeByte_some _ _ _ (by omega)]
  simp only []
  split
  · rename_i hneg
    have hoct3 : block * 5 / 8 ≤ 3 := by omega
    rw [writeByte_some _ _ _ (by simp; omega)]
    exact ⟨_, rfl, by simp⟩
  · exact ⟨_, rfl, by simp⟩

theorem otp_byte_secret_block_defined (secret : List Nat) (i : Nat)
    (hi : i * 8 + 7 ≤ secret.length) :
    ∀ (k : Nat) (n : Int) (out : List Nat), k ≤ 8 → i * 5 + 5 ≤ out.length →
      ∃ n1 out1, otp_byte_secret_block secret i k n out = some (n1, out1)
        ∧ out1.length = out.length := by
  intro k
  induction k with
  | zero => intro n out _ _; exact ⟨n, out, rfl, rfl⟩
  | succ k ih =>
    intro n out hk hout
    obtain ⟨c, hc⟩ := readSecret_some secret (i * 8 + (8 - (k + 1))) (by omega)
    simp only [otp_byte_secret_block, hc]
    by_cases hn : symbol c n < 0
    · rw [if_pos hn]
      exact ⟨_, _, rfl, rfl⟩
    · rw [if_neg hn]
      obtain ⟨out1, h1, h2⟩ :=
        otp_byte_secret_store_defined i (8 - (k + 1)) (symbol c n) out (by omega) hout
      rw [h1]
      simp only []
      obtain ⟨n2, out2, h3, h4⟩ := ih (symbol c n) out1 (by omega) (by omega)
      exact ⟨n2, out2, h3, by omega⟩

/-- At the terminator (or any character outside the alphabet) in position 0 the inner loop
stops at once with `n = 0`. -/
theorem otp_byte_secret_block_stop (secret : List Nat) (i c : Nat) (out : List Nat)
    (hc : readSecret secret (i * 8) = some c) (h1 : ¬ (65 ≤ c ∧ c ≤ 90))
    (h2 : ¬ (50 ≤ c ∧ c ≤ 55)) :
    otp_byte_secret_block secret i 8 (-1) out = some (0, out) := by
  have hs : symbol c (-1) = -1 := by
    unfold symbol
    simp only []
    rw [if_neg h2, if_neg h1]
  simp only [otp_byte_secret_block, Nat.sub_self, Nat.add_zero, hc, hs]
  simp

/-- For a secret whose length is a multiple of 8 and a buffer of at least
`length / 8 * 5 + 1` bytes, the outer loop started at block `i` ends within
`length / 8 + 1 - i` iterations with every access in bounds. -/
theorem otp_byte_secret_loop_defined (secret : List Nat) (h8 : secret.length % 8 = 0) :
    ∀ (fuel i : Nat) (out : List Nat), i ≤ secret.length / 8 →
      secret.length / 8 + 1 ≤ fuel + i → secret.length / 8 * 5 + 1 ≤ out.length →
      ∃ out1, otp_byte_secret_loop secret fuel i out = some out1
        ∧ out1.length = out.length := by
  intro fuel
  induction fuel with
  | zero => intro i out h1 h2 _; omega
  | succ fuel ih =>
    intro i out hi hf hout
    unfold otp_byte_secret_loop
    rw [writeByte_some _ _ _ (by omega)]
    simp only []
    by_cases hlast : i = secret.length / 8
    · have hidx : i * 8 = secret.length := by omega
      have hc : readSecret secret (i * 8) = some 0 := by
        rw [hidx]; exact readSecret_length secret
      rw [otp_byte_secret_block_stop secret i 0 _ hc (by omega) (by omega)]
      simp
    · obtain ⟨n1, out1, h1, h2⟩ :=
        otp_byte_secret_block_defined secret i (by omega) 8 (-1) (out.set (i * 5) (0 % 256))
          (by omega) (by simp; omega)
      rw [h1]
      simp only []
      split
      · exact ⟨out1, rfl, by simpa using h2⟩
      · obtain ⟨out2, h3, h4⟩ := ih (i + 1) out1 (by omega) (by omega)
          (by rw [h2]; simp; omega)
        exact ⟨out2, h3, by rw [h4, h2]; simp⟩

/-- An outer iteration that starts past the terminator reads out of bounds. -/
theorem otp_byte_secret_loop_past (secret : List Nat) (fuel i : Nat) (out : List Nat)
    (h : secret.length < i * 8) : otp_byte_secret_loop secret fuel i out = none := by
  have hr : readSecret secret (i * 8 + (8 - (7 + 1))) = none := by
    unfold readSecret
    exact List.getElem?_eq_none (by simp only [List.length_append, List.length_singleton]; omega)
  cases fuel with
  | zero => rfl
  | succ fuel =>
    unfold otp_byte_secret_loop
    cases writeByte out (i * 5) 0 with
    | none => rfl
    | some out1 =>
      simp only []
      have hb : otp_byte_secret_block secret i 8 (-1) out1 = none := by
        simp only [otp_byte_secret_block, hr]
      rw [hb]

/-- The fuel of the outer loop does not matter once it covers the blocks up to the
terminator: running out of it coincides with reading out of bounds. -/
theorem otp_byte_secret_loop_fuel (secret : List Nat) :
    ∀ (fuel1 fuel2 i : Nat) (out : List Nat), secret.length / 8 + 1 ≤ fuel1 + i →
      secret.length / 8 + 1 ≤ fuel2 + i →
      otp_byte_secret_loop secret fuel1 i out = otp_byte_secret_loop secret fuel2 i out := by
  intro fuel1
  induction fuel1 with
  | zero =>
    intro fuel2 i out h1 _
    rw [otp_byte_secret_loop_past secret 0 i out (by omega),
      otp_byte_secret_loop_past secret fuel2 i out (by omega)]
  | succ fuel1 ih =>
    intro fuel2 i out h1 h2
    cases fuel2 with
    | zero =>
      rw [otp_byte_secret_loop_past secret (fuel1 + 1) i out (by omega),
        otp_byte_secret_loop_past secret 0 i out (by omega)]
    | succ fuel2 =>
      simp only [otp_byte_secret_loop]
      cases writeByte out (i * 5) 0 with
      | none => rfl
      | some out1 =>
        simp only []
        cases otp_byte_secret_block secret i 8 (-1) out1 with
        | none => rfl
        | some r =>
          simp only []
          split
          · rfl
          · exact ih fuel2 (i + 1) r.2 (by omega) (by omega)

/-- With the secret's own length as `size`, `otp_byte_secret` never leaves its buffers when
the output buffer has `length / 8 * 5 + 1` bytes or more. -/
theorem otp_byte_secret_defined (data : OTPData) (out : List Nat)
    (h8 : data.base32_secret.length % 8 = 0)
    (hout : data.base32_secret.length / 8 * 5 + 1 ≤ out.length) :
    ∃ out1, otp_byte_secret data data.base32_secret.length (some out) = some (1, some out1)
      ∧ out1.length = out.length := by
  obtain ⟨out1, h1, h2⟩ := otp_byte_secret_loop_defined data.base32_secret h8
    (data.base32_secret.length / 8 + 1) 0 out (by omega) (by omega) hout
  refine ⟨out1, ?_, h2⟩
  unfold otp_byte_secret
  simp only [h8, h1]
  simp

/-! ## The counter buffer -/

theorem toNat_mod_256 (x : Int) : (x % 256).toNat % 256 = (x % 256).toNat := by
  omega

theorem otp_int_to_bytestring_calloc (input : Int) :
    otp_int_to_bytestring input (some (List.replicate (8 + 1) 0))
      = some (1, some (counter_buffer input)) := by
  simp [otp_int_to_bytestring, writeByte, List.replicate, counter_buffer, toNat_mod_256]

theorem counter_buffer_eq (c : Int) (h0 : 0 ≤ c) (h1 : c < 2147483648) :
    counter_buffer c = big_endian_8 c.toNat ++ [0] := by
  obtain ⟨n, rfl⟩ := Int.eq_ofNat_of_zero_le h0
  have e24 : ((n : Int) >>> (24 : Nat)) = (n : Int) / 16777216 := by
    rw [Int.shiftRight_eq_div_pow]; norm_num
  have e16 : ((n : Int) >>> (16 : Nat)) = (n : Int) / 65536 := by
    rw [Int.shiftRight_eq_div_pow]; norm_num
  have e8 : ((n : Int) >>> (8 : Nat)) = (n : Int) / 256 := by
    rw [Int.shiftRight_eq_div_pow]; norm_num
  unfold counter_buffer big_endian_8
  rw [e24, e16, e8]
  simp only [Int.toNat_ofNat, List.cons_append, List.nil_append, List.cons.injEq, and_true]
  refine ⟨?_, ?_, ?_, ?_, ?_, ?_, ?_, ?_⟩ <;> omega

/-! ## Generation failures -/

/-- The hash call made by `otp_generate`: when the decode yields `key`, the result of the
`goto exit` test is decided by the hash applied to `key` and the counter buffer. -/
theorem otp_generate_hmac_of_key (data : OTPData) (input : Int) (key : List Nat)
    (hb : ¬ hmac_size data < 0)
    (hkey : otp_byte_secret data data.base32_secret.length
      (some (List.replicate (desired_secret_len data + 1) 0)) = some (1, some key)) :
    otp_generate_hmac data input =
      match data.algo key (counter_buffer input) with
      | none => some none
      | some digest =>
        if (hmac_size data).toNat < digest.length then none
        else some (some
          (digest ++ List.replicate ((hmac_size data).toNat - digest.length) 0)) := by
  unfold otp_generate_hmac
  rw [if_neg hb, otp_int_to_bytestring_calloc]
  simp only [one_ne_zero, if_false]
  rw [hkey]
  simp only [one_ne_zero, if_false]

theorem otp_generate_hmac_bad_length (data : OTPData) (input : Int)
    (h8 : data.base32_secret.length % 8 ≠ 0) : otp_generate_hmac data input = some none := by
  unfold otp_generate_hmac
  by_cases hb : hmac_size data < 0
  · rw [if_pos hb]
  · rw [if_neg hb, otp_int_to_bytestring_calloc]
    simp only [one_ne_zero, if_false]
    have hz : otp_byte_secret data data.base32_secret.length
        (some (List.replicate (desired_secret_len data + 1) 0))
        = some (0, some (List.replicate (desired_secret_len data + 1) 0)) := by
      unfold otp_byte_secret
      simp only [ne_eq, h8, not_false_eq_true, if_true]
    rw [hz]
    simp only [if_true]

/-- The decode inside `otp_generate` is always in bounds: it either refuses the length or
returns 1 with a buffer of the allocated size. -/
theorem otp_generate_decode (data : OTPData) (h8 : data.base32_secret.length % 8 = 0) :
    ∃ key, otp_byte_secret data data.base32_secret.length
      (some (List.replicate (desired_secret_len data + 1) 0)) = some (1, some key)
      ∧ key.length = desired_secret_len data + 1 := by
  obtain ⟨key, hkey, hlen⟩ := otp_byte_secret_defined data
    (List.replicate (desired_secret_len data + 1) 0) h8 (by simp [desired_secret_len])
  exact ⟨key, hkey, by simpa using hlen⟩

/-- The three failure exits of `otp_generate`: a negative input, a secret whose length is
not a multiple of 8, and a hash that reports failure on the call it receives. -/
theorem otp_generate_exit (data : OTPData) (input : Int) (out_str : Option (List Nat))
    (h : input < 0 ∨ data.base32_secret.length % 8 ≠ 0 ∨
      ∀ key, otp_byte_secret data data.base32_secret.length
          (some (List.replicate (desired_secret_len data + 1) 0))
          = some (1, some key) → data.algo key (counter_buffer input) = none) :
    otp_generate data input out_str = some (0, out_str) := by
  unfold otp_generate
  by_cases hin : input < 0
  · rw [if_pos hin]
  · rw [if_neg hin]
    by_cases hb : hmac_size data < 0
    · have : otp_generate_hmac data input = some none := by
        unfold otp_generate_hmac
        rw [if_pos hb]
      rw [this]
    · by_cases h8 : data.base32_secret.length % 8 = 0
      · obtain ⟨key, hkey, _⟩ := otp_generate_decode data h8
        have hfail : data.algo key (counter_buffer input) = none := by
          rcases h with h | h | h
          · exact absurd h hin
          · exact absurd h8 h
          · exact h key hkey
        rw [otp_generate_hmac_of_key data input key hb hkey, hfail]
      · rw [otp_generate_hmac_bad_length data input h8]

/-! ## Dynamic truncation -/

theorem shiftLeft_add_eq_or (a b i : Nat) (hb : b < 2 ^ i) : a <<< i + b = a <<< i ||| b := by
  rw [Nat.shiftLeft_eq, Nat.mul_comm]
  exact Nat.mul_add_lt_is_or hb a

theorem or_shift_eq_add (a b c e : Nat) (hb : b < 256) (hc : c < 256) (he : e < 256) :
    a <<< 24 ||| b <<< 16 ||| c <<< 8 ||| e = a * 16777216 + b * 65536 + c * 256 + e := by
  have e1 : a <<< 24 + b <<< 16 = a <<< 24 ||| b <<< 16 :=
    shiftLeft_add_eq_or a _ 24 (by simp only [Nat.shiftLeft_eq]; omega)
  have r1 : a <<< 24 + b <<< 16 = (a * 256 + b) <<< 16 := by
    simp only [Nat.shiftLeft_eq]; omega
  have e2 : (a * 256 + b) <<< 16 + c <<< 8 = (a * 256 + b) <<< 16 ||| c <<< 8 :=
    shiftLeft_add_eq_or _ _ 16 (by simp only [Nat.shiftLeft_eq]; omega)
  have r2 : (a * 256 + b) <<< 16 + c <<< 8 = ((a * 256 + b) * 256 + c) <<< 8 := by
    simp only [Nat.shiftLeft_eq]; omega
  have e3 : ((a * 256 + b) * 256 + c) <<< 8 + e = ((a * 256 + b) * 256 + c) <<< 8 ||| e :=
    shiftLeft_add_eq_or _ _ 8 (by omega)
  rw [← e1, r1, ← e2, r2, ← e3]
  simp only [Nat.shiftLeft_eq]
  omega

theorem and_255 (b : Nat) (hb : b < 256) : b &&& 0xFF = b := by
  have h := Nat.and_pow_two_sub_one_eq_mod b 8
  have e : (2 : Nat) ^ 8 - 1 = 0xFF := by norm_num
  rw [e] at h
  rw [h]
  exact Nat.mod_eq_of_lt hb

theorem getElem?_append_getD (d rest : List Nat) (i : Nat) (h : i < d.length) :
    (d ++ rest)[i]? = some (d.getD i 0) := by
  rw [List.getElem?_append_left h, List.getD_eq_getElem?_getD, List.getElem?_eq_getElem h]
  rfl

theorem getD_lt_256 (d : List Nat) (hb : ∀ b ∈ d, b < 256) (i : Nat) : d.getD i 0 < 256 := by
  by_cases h : i < d.length
  · rw [List.getD_eq_getElem?_getD, List.getElem?_eq_getElem h]
    exact hb _ (List.getElem_mem h)
  · rw [List.getD_eq_getElem?_getD, List.getElem?_eq_none (by omega)]
    decide

/-- The truncation of a digest of 19 bytes or more whose cells are bytes, as arithmetic. -/
theorem truncate_eq (d rest : List Nat) (hlen : 19 ≤ d.length) (hb : ∀ b ∈ d, b < 256) :
    truncate (d ++ rest) ((d.length : Nat) : Int) =
      some ((d.getD (d.getD (d.length - 1) 0 &&& 0xF) 0 &&& 0x7F) * 16777216
        + d.getD ((d.getD (d.length - 1) 0 &&& 0xF) + 1) 0 * 65536
        + d.getD ((d.getD (d.length - 1) 0 &&& 0xF) + 2) 0 * 256
        + d.getD ((d.getD (d.length - 1) 0 &&& 0xF) + 3) 0) := by
  have ho : d.getD (d.length - 1) 0 &&& 0xF ≤ 0xF := Nat.and_le_right
  have hr : readAt (d ++ rest) (((d.length : Nat) : Int) - 1)
      = some (d.getD (d.length - 1) 0) := by
    unfold readAt
    rw [if_neg (by omega)]
    have e : (((d.length : Nat) : Int) - 1).toNat = d.length - 1 := by omega
    rw [e]
    exact getElem?_append_getD d rest _ (by omega)
  unfold truncate
  rw [hr]
  simp only []
  rw [getElem?_append_getD d rest _ (by omega), getElem?_append_getD d rest _ (by omega),
    getElem?_append_getD d rest _ (by omega), getElem?_append_getD d rest _ (by omega)]
  simp only []
  rw [and_255 _ (getD_lt_256 d hb _), and_255 _ (getD_lt_256 d hb _),
    and_255 _ (getD_lt_256 d hb _),
    or_shift_eq_add _ _ _ _ (getD_lt_256 d hb _) (getD_lt_256 d hb _) (getD_lt_256 d hb _)]

/-- The truncation never leaves a digest buffer of 19 bytes or more. -/
theorem truncate_defined (hmac : List Nat) (n : Nat) (hlen : hmac.length = n + 1)
    (h18 : 18 ≤ n) : ∃ code0, truncate hmac ((n : Nat) : Int) = some code0 := by
  have e : (((n : Nat) : Int) - 1).toNat = n - 1 := by omega
  unfold truncate readAt
  rw [if_neg (by omega), e, List.getElem?_eq_getElem (by omega)]
  simp only []
  have ho : hmac.get ⟨n - 1, by omega⟩ &&& 0xF ≤ 0xF := Nat.and_le_right
  simp only [List.get_eq_getElem] at ho
  rw [List.getElem?_eq_getElem (by omega), List.getElem?_eq_getElem (by omega),
    List.getElem?_eq_getElem (by omega), List.getElem?_eq_getElem (by omega)]
  exact ⟨_, rfl⟩

/-! ## The code and its text -/

theorem toInt32_of_lt (x : Int) (h0 : 0 ≤ x) (h1 : x < 2147483648) : toInt32 x = x := by
  unfold toInt32
  split <;> omega

theorem bit_size_eq (data : OTPData) (h : data.bits / 8 < 2147483648) :
    bit_size data = ((data.bits / 8 : Nat) : Int) := by
  unfold bit_size
  exact toInt32_of_lt _ (by omega) (by omega)

/-- The size of the digest buffer when `bit_size+1` fits an `int`. -/
theorem hmac_size_eq (data : OTPData) (h : data.bits / 8 < 2147483647) :
    hmac_size data = ((data.bits / 8 : Nat) : Int) + 1 := by
  unfold hmac_size
  rw [bit_size_eq data (by omega)]
  exact toInt32_of_lt _ (by omega) (by omega)

/-- The size of the digest buffer is negative when `bit_size` is the largest `int`. -/
theorem hmac_size_neg (data : OTPData) (h : data.bits / 8 = 2147483647) :
    hmac_size data < 0 := by
  unfold hmac_size
  rw [bit_size_eq data (by omega), h]
  unfold toInt32
  split <;> omega

theorem writeStr_some (buf text : List Nat) (h : text.length + 1 ≤ buf.length) :
    writeStr buf text = some (text ++ 0 :: buf.drop (text.length + 1)) := by
  unfold writeStr
  rw [if_pos h]

theorem writeStr_inv (buf text out : List Nat) (h : writeStr buf text = some out) :
    text.length + 1 ≤ buf.length ∧ out = text ++ 0 :: buf.drop (text.length + 1) := by
  unfold writeStr at h
  split at h
  · rename_i hlen
    cases h
    exact ⟨hlen, rfl⟩
  · cases h

theorem mod_pow_bounds (code0 d : Nat) :
    0 ≤ (code0 : Int) % ((10 ^ d : Nat) : Int)
      ∧ (code0 : Int) % ((10 ^ d : Nat) : Int) < ((10 ^ d : Nat) : Int) := by
  have hpos : (0 : Int) < ((10 ^ d : Nat) : Int) := by
    have : 0 < 10 ^ d := Nat.pos_pow_of_pos _ (by norm_num)
    omega
  exact ⟨Int.emod_nonneg _ (by omega), Int.emod_lt_of_pos _ hpos⟩

/-- What a completed run of the final part of `otp_generate` returns for a non-null
`out_str`. -/
theorem otp_generate_code_inv (data : OTPData) (hmac out : List Nat) (code : Int)
    (out1 : Option (List Nat)) (hd : 1 ≤ data.digits)
    (h : otp_generate_code data hmac (some out) = some (code, out1)) :
    0 ≤ code ∧ code < ((10 ^ data.digits : Nat) : Int) ∧ data.digits + 1 ≤ out.length
      ∧ out1 = some (sprintf_0Nd data.digits code ++ 0 :: out.drop (data.digits + 1))
      ∧ otp_generate_code data hmac none = some (code, none) := by
  unfold otp_generate_code at h ⊢
  generalize truncate hmac (bit_size data) = tr at h ⊢
  cases tr with
  | none => cases h
  | some code0 =>
    simp only [] at h ⊢
    by_cases h10 : 10 ≤ data.digits
    · rw [if_pos h10] at h; cases h
    · rw [if_neg h10] at h
      rw [if_neg h10]
      have hbound := mod_pow_bounds code0 data.digits
      have hlen := sprintf_0Nd_length data.digits _ hd hbound.1 hbound.2
      cases hw : writeStr out
          (sprintf_0Nd data.digits ((code0 : Int) % ((10 ^ data.digits : Nat) : Int))) with
      | none => rw [hw] at h; cases h
      | some o =>
        rw [hw] at h
        simp only [Option.some.injEq, Prod.mk.injEq] at h
        obtain ⟨hcode, hout⟩ := h
        obtain ⟨hroom, ho⟩ := writeStr_inv _ _ _ hw
        rw [hlen] at hroom ho
        subst hcode
        exact ⟨hbound.1, hbound.2, hroom, by rw [← hout, ho], rfl⟩

/-- A run of the final part of `otp_generate` with a null `out_str` carries over to any
buffer with room for the text and its terminator. -/
theorem otp_generate_code_of_none (data : OTPData) (hmac out : List Nat) (code : Int)
    (hd : 1 ≤ data.digits) (hroom : data.digits + 1 ≤ out.length)
    (h : otp_generate_code data hmac none = some (code, none)) :
    otp_generate_code data hmac (some out)
      = some (code, some (sprintf_0Nd data.digits code ++ 0 :: out.drop (data.digits + 1)))
      ∧ 0 ≤ code ∧ code < ((10 ^ data.digits : Nat) : Int) := by
  unfold otp_generate_code at h ⊢
  generalize truncate hmac (bit_size data) = tr at h ⊢
  cases tr with
  | none => cases h
  | some code0 =>
    simp only [] at h ⊢
    by_cases h10 : 10 ≤ data.digits
    · rw [if_pos h10] at h; cases h
    · rw [if_neg h10] at h
      rw [if_neg h10]
      have hbound := mod_pow_bounds code0 data.digits
      have hlen := sprintf_0Nd_length data.digits _ hd hbound.1 hbound.2
      simp only [Option.some.injEq, Prod.mk.injEq, and_true] at h
      subst h
      rw [writeStr_some _ _ (by omega), hlen]
      exact ⟨rfl, hbound.1, hbound.2⟩

/-- Every completed call of `otp_generate` with a non-null `out_str` either took the
`exit` path or ran the final part on some digest buffer. -/
theorem otp_generate_inv (data : OTPData) (input : Int) (out_str : Option (List Nat))
    (r : Int × Option (List Nat)) (h : otp_generate data input out_str = some r) :
    r = (0, out_str) ∨ (0 ≤ input ∧ ∃ hmac, otp_generate_hmac data input = some (some hmac)
      ∧ otp_generate_code data hmac out_str = some r) := by
  unfold otp_generate at h
  by_cases hin : input < 0
  · rw [if_pos hin] at h
    cases h
    exact Or.inl rfl
  · rw [if_neg hin] at h
    generalize otp_generate_hmac data input = hh at h ⊢
    cases hh with
    | none => cases h
    | some o =>
      cases o with
      | none =>
        cases h
        exact Or.inl rfl
      | some hmac => exact Or.inr ⟨by omega, hmac, rfl, h⟩

/-- The value of `otp_generate` when the decode yields `key` and the hash answers `d` on
that key and the counter buffer. -/
theorem otp_generate_value (data : OTPData) (c : Int) (key d : List Nat)
    (out_str : Option (List Nat)) (hd : 1 ≤ data.digits ∧ data.digits ≤ 9)
    (hbits : 19 ≤ data.bits / 8 ∧ data.bits / 8 < 2147483647) (hc : 0 ≤ c)
    (hkey : otp_byte_secret data data.base32_secret.length
      (some (List.replicate (desired_secret_len data + 1) 0)) = some (1, some key))
    (hhash : data.algo key (counter_buffer c) = some d)
    (hlen : d.length = data.bits / 8) (hbyte : ∀ b ∈ d, b < 256)
    (hroom : ∀ out, out_str = some out → data.digits + 1 ≤ out.length) :
    ∃ out1, otp_generate data c out_str
      = some (((dynamic_truncation d (data.bits / 8) % 10 ^ data.digits : Nat) : Int), out1) := by
  have hbs := bit_size_eq data (Nat.lt_succ_of_lt hbits.2)
  have hms := hmac_size_eq data hbits.2
  have hb : ¬ hmac_size data < 0 := by rw [hms]; omega
  have hfit : ¬ (hmac_size data).toNat < d.length := by rw [hms]; omega
  have htr : truncate (d ++ List.replicate ((hmac_size data).toNat - d.length) 0)
      (bit_size data) = some (dynamic_truncation d (data.bits / 8)) := by
    rw [hbs, ← hlen, truncate_eq d _ (by omega) hbyte]
    rfl
  unfold otp_generate
  rw [if_neg (by omega), otp_generate_hmac_of_key data c key hb hkey, hhash]
  simp only [hfit, if_false]
  unfold otp_generate_code
  rw [htr]
  simp only []
  rw [if_neg (by omega), Int.natCast_mod]
  cases out_str with
  | none => exact ⟨none, rfl⟩
  | some out =>
    simp only []
    have hbound := mod_pow_bounds (dynamic_truncation d (data.bits / 8)) data.digits
    have hl := sprintf_0Nd_length data.digits _ hd.1 hbound.1 hbound.2
    have := hroom out rfl
    rw [writeStr_some _ _ (by omega)]
    exact ⟨_, rfl⟩

/-- At `bits/8 = 2^31 - 1` the `int` sum `bit_size+1` has wrapped, `calloc` returns `NULL`
for `hmac`, and `otp_generate` leaves by the `exit` path with 0. -/
theorem otp_generate_size_wrapped (data : OTPData) (input : Int) (out_str : Option (List Nat))
    (h : data.bits / 8 = 2147483647) :
    otp_generate data input out_str = some (0, out_str) := by
  have hexit : otp_generate_hmac data input = some none := by
    unfold otp_generate_hmac
    rw [if_pos (hmac_size_neg data h)]
  unfold otp_generate
  by_cases hin : input < 0
  · rw [if_pos hin]
  · rw [if_neg hin, hexit]

/-! ## Generation never leaves its buffers -/

/-- Under a digest length of 18 bytes or more that fits an `int` and a hash whose digests
fit the digest buffer, the `goto exit` test is evaluated without undefined behaviour and
leaves a digest buffer of `bits/8 + 1` bytes. -/
theorem otp_generate_hmac_defined (data : OTPData) (input : Int)
    (hbits : data.bits / 8 < 2147483648)
    (hfit : ∀ key msg d, data.algo key msg = some d → d.length ≤ data.bits / 8 + 1) :
    ∃ r, otp_generate_hmac data input = some r
      ∧ ∀ hmac, r = some hmac → hmac.length = data.bits / 8 + 1 := by
  by_cases hedge : data.bits / 8 = 2147483647
  · have hneg := hmac_size_neg data hedge
    have hexit : otp_generate_hmac data input = some none := by
      unfold otp_generate_hmac
      rw [if_pos hneg]
    rw [hexit]
    exact ⟨none, rfl, fun _ h => nomatch h⟩
  · have hms := hmac_size_eq data (by omega)
    have hb : ¬ hmac_size data < 0 := by rw [hms]; omega
    by_cases h8 : data.base32_secret.length % 8 = 0
    · obtain ⟨key, hkey, _⟩ := otp_generate_decode data h8
      rw [otp_generate_hmac_of_key data input key hb hkey]
      cases hh : data.algo key (counter_buffer input) with
      | none => exact ⟨none, rfl, fun _ h => nomatch h⟩
      | some d =>
        have hd := hfit _ _ _ hh
        have hfit2 : ¬ (hmac_size data).toNat < d.length := by rw [hms]; omega
        simp only [hfit2, if_false]
        refine ⟨_, rfl, ?_⟩
        intro hmac he
        cases he
        rw [List.length_append, List.length_replicate, hms]
        omega
    · rw [otp_generate_hmac_bad_length data input h8]
      exact ⟨none, rfl, fun _ h => nomatch h⟩

theorem otp_generate_code_defined (data : OTPData) (hmac : List Nat)
    (hd : data.digits ≤ 9) (hbits : 18 ≤ data.bits / 8 ∧ data.bits / 8 < 2147483648)
    (hlen : hmac.length = data.bits / 8 + 1) :
    ∃ code, otp_generate_code data hmac none = some (code, none) := by
  obtain ⟨code0, h0⟩ := truncate_defined hmac (data.bits / 8) hlen hbits.1
  unfold otp_generate_code
  rw [bit_size_eq data hbits.2, h0]
  simp only []
  rw [if_neg (by omega)]
  exact ⟨_, rfl⟩

/-- With `digits` in 1..9, a digest length in `[18, 2^31)`, a hash whose digests fit the
digest buffer and an `out_str` with room for the text, `otp_generate` has no undefined
behaviour; the returned code does not depend on `out_str`, and the buffer holds the text
of the code unless the `exit` path was taken. -/
theorem otp_generate_defined (data : OTPData) (input : Int) (out : List Nat)
    (hd : 1 ≤ data.digits ∧ data.digits ≤ 9)
    (hbits : 18 ≤ data.bits / 8 ∧ data.bits / 8 < 2147483648)
    (hfit : ∀ key msg d, data.algo key msg = some d → d.length ≤ data.bits / 8 + 1)
    (hroom : data.digits + 1 ≤ out.length) :
    ∃ code, otp_generate data input none = some (code, none)
      ∧ 0 ≤ code ∧ code < ((10 ^ data.digits : Nat) : Int)
      ∧ (otp_generate data input (some out) = some (code,
            some (sprintf_0Nd data.digits code ++ 0 :: out.drop (data.digits + 1)))
          ∨ (code = 0 ∧ otp_generate data input (some out) = some (0, some out))) := by
  have hpos : (0 : Int) < ((10 ^ data.digits : Nat) : Int) := (mod_pow_bounds 1 _).1.trans_lt
    (mod_pow_bounds 1 _).2
  unfold otp_generate
  by_cases hin : input < 0
  · rw [if_pos hin, if_pos hin]
    exact ⟨0, rfl, le_refl _, hpos, Or.inr ⟨rfl, rfl⟩⟩
  · rw [if_neg hin, if_neg hin]
    obtain ⟨r, hr, hlen⟩ := otp_generate_hmac_defined data input hbits.2 hfit
    rw [hr]
    cases r with
    | none => exact ⟨0, rfl, le_refl _, hpos, Or.inr ⟨rfl, rfl⟩⟩
    | some hmac =>
      simp only []
      obtain ⟨code, hcode⟩ := otp_generate_code_defined data hmac hd.2 hbits (hlen hmac rfl)
      obtain ⟨h1, h2, h3⟩ := otp_generate_code_of_none data hmac out code hd.1 hroom hcode
      exact ⟨code, hcode, h2, h3, Or.inl h1⟩

/-! ## Comparison of the two 8-byte texts -/

theorem compare_loop_spec (key str : List Nat) (hk : 8 ≤ key.length) (hs : 8 ≤ str.length) :
    ∀ k, k ≤ 8 →
      (compare_loop key str k = some 1 ∧ ∀ j, 8 - k ≤ j → j < 8 → key[j]? = str[j]?)
      ∨ (compare_loop key str k = some 0 ∧ ∃ j, j < 8 ∧ key[j]? ≠ str[j]?) := by
  intro k
  induction k with
  | zero =>
    intro _
    exact Or.inl ⟨rfl, fun j h1 h2 => by omega⟩
  | succ k ih =>
    intro hk8
    have e1 : key[8 - (k + 1)]? = some (key.get ⟨8 - (k + 1), by omega⟩) :=
      List.getElem?_eq_getElem (by omega)
    have e2 : str[8 - (k + 1)]? = some (str.get ⟨8 - (k + 1), by omega⟩) :=
      List.getElem?_eq_getElem (by omega)
    unfold compare_loop
    rw [e1, e2]
    simp only []
    by_cases hne : key.get ⟨8 - (k + 1), by omega⟩ ≠ str.get ⟨8 - (k + 1), by omega⟩
    · rw [if_pos hne]
      refine Or.inr ⟨rfl, 8 - (k + 1), by omega, ?_⟩
      rw [e1, e2]
      intro h
      exact hne (Option.some.inj h)
    · rw [if_neg hne]
      rcases ih (by omega) with ⟨h1, h2⟩ | ⟨h1, h2⟩
      · refine Or.inl ⟨h1, ?_⟩
        intro j hj1 hj2
        by_cases hj : j = 8 - (k + 1)
        · subst hj
          rw [e1, e2]
          exact congrArg some (not_not.mp hne)
        · exact h2 j (by omega) hj2
      · exact Or.inr ⟨h1, h2⟩

/-- On two 8-byte buffers the comparison loop returns 1 when they are equal and 0
otherwise. -/
theorem compare_loop_eq (key str : List Nat) (hk : key.length = 8) (hs : str.length = 8) :
    compare_loop key str 8 = some (if key = str then 1 else 0) := by
  rcases compare_loop_spec key str (by omega) (by omega) 8 (le_refl _) with ⟨h1, h2⟩ | ⟨h1, h2⟩
  · have he : key = str := by
      apply List.ext_getElem?
      intro j
      by_cases hj : j < 8
      · exact h2 j (by omega) hj
      · rw [List.getElem?_eq_none (by omega), List.getElem?_eq_none (by omega)]
    rw [h1, if_pos he]
  · obtain ⟨j, _, hj⟩ := h2
    have he : key ≠ str := by
      intro he
      exact hj (by rw [he])
    rw [h1, if_neg he]

/-! ## TOTP comparison -/

theorem totp_counter_eq (data : OTPData) (for_time : Nat) (i : Int) :
    totp_counter data for_time (toSizeT i) = toInt32 (totp_timecode data for_time + i) := by
  unfold totp_counter toInt32 toSizeT
  generalize totp_timecode data for_time = tc
  omega

theorem sprintf_d_nonzero (k : Int) (c : Nat) (h : c ∈ sprintf_d k) : c ≠ 0 := by
  unfold sprintf_d at h
  split at h
  · rcases List.mem_cons.mp h with h1 | h1
    · omega
    · have := sprintf_u_digits _ _ h1
      omega
  · have := sprintf_u_digits _ _ h
    omega

theorem sprintf_d_length (k : Int) (d : Nat) (hd : 1 ≤ d) (h0 : 0 ≤ k)
    (hk : k < ((10 ^ d : Nat) : Int)) : (sprintf_d k).length ≤ d := by
  unfold sprintf_d
  rw [if_neg (by omega)]
  exact sprintf_u_length_le _ _ hd (by omega)

theorem decimal_value_sprintf_d (k : Int) (h0 : 0 ≤ k) :
    (decimal_value (sprintf_d k) : Int) = k := by
  unfold sprintf_d
  rw [if_neg (by omega), decimal_value_sprintf_u]
  omega

/-- Two NUL-terminated texts at the start of two equal buffers are equal. -/
theorem text_eq_of_buffer_eq : ∀ (t1 t2 r1 r2 : List Nat), (∀ c ∈ t1, c ≠ 0) →
    (∀ c ∈ t2, c ≠ 0) → t1 ++ 0 :: r1 = t2 ++ 0 :: r2 → t1 = t2 := by
  intro t1
  induction t1 with
  | nil =>
    intro t2 r1 r2 _ h2 h
    cases t2 with
    | nil => rfl
    | cons b t2 =>
      simp only [List.nil_append, List.cons_append, List.cons.injEq] at h
      exact absurd h.1.symm (h2 b (List.mem_cons_self _ _))
  | cons a t1 ih =>
    intro t2 r1 r2 h1 h2 h
    cases t2 with
    | nil =>
      simp only [List.nil_append, List.cons_append, List.cons.injEq] at h
      exact absurd h.1 (h1 a (List.mem_cons_self _ _))
    | cons b t2 =>
      simp only [List.cons_append, List.cons.injEq] at h
      rw [h.1, ih t2 r1 r2 (fun c hc => h1 c (List.mem_cons_of_mem _ hc))
        (fun c hc => h2 c (List.mem_cons_of_mem _ hc)) h.2]

theorem text_buffer_length (text : List Nat) (h : text.length ≤ 7) :
    (text ++ 0 :: (List.replicate 8 0).drop (text.length + 1)).length = 8 := by
  rw [List.length_append, List.length_cons, List.length_drop, List.length_replicate]
  omega

/-- The result of `totp_comparei` when nothing is undefined: 1 exactly when the code
generated for the shifted time step is not 0 and its zero-padded text is the `%d` text of
the key. -/
theorem totp_comparei_eq (data : OTPData) (key : Int) (increment for_time : Nat)
    (hd : 1 ≤ data.digits ∧ data.digits ≤ 7)
    (hbits : 18 ≤ data.bits / 8 ∧ data.bits / 8 < 2147483648)
    (hfit : ∀ k m d, data.algo k m = some d → d.length ≤ data.bits / 8 + 1)
    (hkey : (sprintf_d key).length ≤ 7) :
    ∃ code, otp_generate data (totp_counter data for_time increment) none = some (code, none)
      ∧ 0 ≤ code ∧ code < ((10 ^ data.digits : Nat) : Int)
      ∧ totp_comparei data key increment for_time
        = some (if code ≠ 0 ∧ sprintf_d key = sprintf_0Nd data.digits code then 1 else 0) := by
  obtain ⟨code, hnone, h0, h1, hsome⟩ := otp_generate_defined data
    (totp_counter data for_time increment) (List.replicate 8 0) ⟨hd.1, by omega⟩ hbits hfit
    (by simp only [List.length_replicate]; omega)
  refine ⟨code, hnone, h0, h1, ?_⟩
  unfold totp_comparei
  rw [writeStr_some _ _ (by simp only [List.length_replicate]; omega)]
  simp only []
  unfold totp_compares totp_at
  rcases hsome with hs | ⟨hz, hs⟩
  · rw [hs]
    simp only []
    by_cases hc : code = 0
    · rw [if_pos hc, if_neg (fun h => h.1 hc)]
    · have hlen := sprintf_0Nd_length data.digits code hd.1 h0 h1
      have hts : (sprintf_0Nd data.digits code
          ++ 0 :: List.drop (data.digits + 1) (List.replicate 8 0)).length = 8 := by
        rw [List.length_append, List.length_cons, List.length_drop, List.length_replicate,
          hlen]
        omega
      have hiff : (sprintf_d key ++ 0 :: List.drop ((sprintf_d key).length + 1)
            (List.replicate 8 0)
          = sprintf_0Nd data.digits code
            ++ 0 :: List.drop (data.digits + 1) (List.replicate 8 0))
          ↔ (code ≠ 0 ∧ sprintf_d key = sprintf_0Nd data.digits code) := by
        constructor
        · intro he
          exact ⟨hc, text_eq_of_buffer_eq _ _ _ _ (sprintf_d_nonzero key)
            (fun c hcm => by have := sprintf_0Nd_digits _ _ h0 c hcm; omega) he⟩
        · intro he
          rw [he.2, hlen]
      rw [if_neg hc, compare_loop_eq _ _ (text_buffer_length _ hkey) hts]
      simp only [hiff]
  · rw [hs]
    simp only [if_true]
    rw [if_neg (fun h => h.1 hz)]

/-! ## The window search -/

/-- The loop of `totp_verify`, when no comparison is undefined, returns 1 exactly when one
of the offsets it tries compares equal. -/
theorem totp_verify_loop_eq_one_iff (data : OTPData) (key : Int) (for_time : Nat) (w : Int) :
    ∀ k : Nat,
      (∀ m : Nat, 1 ≤ m → m ≤ k →
        totp_comparei data key (toSizeT (w - (m : Int))) for_time ≠ none) →
      (totp_verify_loop data key for_time w k = some 1 ↔
        ∃ m : Nat, 1 ≤ m ∧ m ≤ k
          ∧ totp_comparei data key (toSizeT (w - (m : Int))) for_time = some 1) := by
  intro k
  induction k with
  | zero =>
    intro _
    constructor
    · intro h
      unfold totp_verify_loop at h
      cases h
    · rintro ⟨m, h1, h2, _⟩
      omega
  | succ k ih =>
    intro hdef
    have ih1 := ih (fun m h1 h2 => hdef m h1 (by omega))
    unfold totp_verify_loop
    cases hc : totp_comparei data key (toSizeT (w - ((k + 1 : Nat) : Int))) for_time with
    | none => exact absurd hc (hdef (k + 1) (by omega) (le_refl _))
    | some cmp =>
      simp only []
      by_cases h1 : cmp = 1
      · rw [if_pos h1, h1]
        constructor
        · intro _
          exact ⟨k + 1, by omega, le_refl _, by rw [hc, h1]⟩
        · intro _
          rfl
      · rw [if_neg h1, ih1]
        constructor
        · rintro ⟨m, hm1, hm2, hm3⟩
          exact ⟨m, hm1, by omega, hm3⟩
        · rintro ⟨m, hm1, hm2, hm3⟩
          by_cases hm : m = k + 1
          · subst hm
            rw [hc] at hm3
            exact absurd (Option.some.inj hm3) h1
          · exact ⟨m, hm1, by omega, hm3⟩

/-- The function `totp_verify`, when no comparison of the call is undefined, returns 1
exactly when `totp_comparei` returns 1 for an offset of the searched set. -/
theorem totp_verify_eq_one_iff (data : OTPData) (key : Int) (for_time : Nat) (w : Int)
    (hw : 0 ≤ w)
    (hdef : ∀ i : Int, (w = 0 ∧ i = 0 ∨ 0 < w ∧ -w ≤ i ∧ i ≤ w - 1) →
      totp_comparei data key (toSizeT i) for_time ≠ none) :
    totp_verify data key for_time w = some 1 ↔
      ∃ i : Int, (w = 0 ∧ i = 0 ∨ 0 < w ∧ -w ≤ i ∧ i ≤ w - 1)
        ∧ totp_comparei data key (toSizeT i) for_time = some 1 := by
  unfold totp_verify
  rw [if_neg (by omega)]
  by_cases hpos : w > 0
  · rw [if_pos hpos, totp_verify_loop_eq_one_iff data key for_time w (2 * w).toNat
      (fun m h1 h2 => hdef _ (Or.inr ⟨hpos, by omega, by omega⟩))]
    constructor
    · rintro ⟨m, h1, h2, h3⟩
      exact ⟨w - (m : Int), Or.inr ⟨hpos, by omega, by omega⟩, h3⟩
    · rintro ⟨i, hi, h3⟩
      rcases hi with ⟨h, _⟩ | ⟨_, h1, h2⟩
      · omega
      · refine ⟨(w - i).toNat, by omega, by omega, ?_⟩
        have e : w - (((w - i).toNat : Nat) : Int) = i := by omega
        rw [e]
        exact h3
  · rw [if_neg hpos]
    have hw0 : w = 0 := by omega
    constructor
    · intro h
      exact ⟨0, Or.inl ⟨hw0, rfl⟩, h⟩
    · rintro ⟨i, hi, h3⟩
      rcases hi with ⟨_, h⟩ | ⟨h, _⟩
      · rw [h] at h3
        exact h3
      · omega

/-- Every digest of the tabulated hash has 20 bytes. -/
theorem hmac_sha1_table_fit (key msg d : List Nat) (h : hmac_sha1_table key msg = some d) :
    d.length ≤ 160 / 8 + 1 := by
  unfold hmac_sha1_table at h
  split at h
  · split at h
    · cases h; decide
    · split at h
      · cases h; decide
      · split at h
        · cases h; decide
        · split at h
          · cases h; decide
          · cases h
  · cases h

/-! ## Decoding a full block -/

theorem getElem?_mid (pre l post : List Nat) (k : Nat) (hk : k < l.length) :
    (pre ++ (l ++ post))[pre.length + k]? = some (l.getD k 0) := by
  rw [List.getElem?_append_right (by omega), Nat.add_sub_cancel_left,
    List.getElem?_append_left hk, List.getD_eq_getElem?_getD, List.getElem?_eq_getElem hk]
  rfl

theorem writeByte_mid (pre l post : List Nat) (k v : Nat) (hk : k < l.length) :
    writeByte (pre ++ (l ++ post)) (pre.length + k) v
      = some (pre ++ (l.set k (v % 256) ++ post)) := by
  unfold writeByte
  rw [if_pos (by simp only [List.length_append]; omega),
    List.set_append_right _ _ (by omega), Nat.add_sub_cancel_left,
    List.set_append_left _ _ hk]

/-- The two stores of one inner iteration on a buffer split around the 5 bytes of the
current block. -/
theorem otp_byte_secret_store_mid (pre l post : List Nat) (i block : Nat) (n : Int)
    (hpre : pre.length = i * 5) (hl : l.length = 5) (hb : block < 8) :
    otp_byte_secret_store i block n (pre ++ (l ++ post)) =
      some (pre ++ ((if 3 - ((5 * block % 8 : Nat) : Int) < 0 then
          (l.set (block * 5 / 8) ((l.getD (block * 5 / 8) 0
              ||| shiftBy n.toNat (3 - ((5 * block % 8 : Nat) : Int))) % 256)).set
            (block * 5 / 8 + 1)
            (shiftBy n.toNat (8 + (3 - ((5 * block % 8 : Nat) : Int))) % 256)
        else l.set (block * 5 / 8) ((l.getD (block * 5 / 8) 0
              ||| shiftBy n.toNat (3 - ((5 * block % 8 : Nat) : Int))) % 256)) ++ post)) := by
  have hoct : block * 5 / 8 ≤ 4 := by omega
  unfold otp_byte_secret_store
  simp only []
  rw [← hpre, getElem?_mid pre l post _ (by omega)]
  simp only []
  rw [writeByte_mid pre l post _ _ (by omega)]
  simp only []
  by_cases hneg : 3 - ((5 * block % 8 : Nat) : Int) < 0
  · have hoct3 : block * 5 / 8 ≤ 3 := by omega
    rw [if_pos hneg, if_pos hneg, Nat.add_assoc,
      writeByte_mid pre _ post _ _ (by rw [List.length_set]; omega)]
  · rw [if_neg hneg, if_neg hneg]

theorem symbol_of_value (c v : Nat) (n : Int) (h : base32_value c = some v) :
    symbol c n = (v : Int) ∧ v < 32 := by
  unfold base32_value at h
  unfold symbol
  simp only []
  by_cases h1 : 65 ≤ c ∧ c ≤ 90
  · rw [if_pos h1] at h
    rw [if_neg (by omega), if_pos h1]
    have := Option.some.inj h
    omega
  · rw [if_neg h1] at h
    by_cases h2 : 50 ≤ c ∧ c ≤ 55
    · rw [if_pos h2] at h
      rw [if_pos h2]
      have := Option.some.inj h
      omega
    · rw [if_neg h2] at h
      cases h

/-- One inner iteration on a valid symbol, on a buffer split around the 5 bytes of the
current block. -/
theorem otp_byte_secret_block_step (secret pre l post : List Nat) (i k c v : Nat) (n : Int)
    (hk : k < 8) (hr : readSecret secret (i * 8 + (8 - (k + 1))) = some c)
    (hv : base32_value c = some v) (hpre : pre.length = i * 5) (hl : l.length = 5) :
    otp_byte_secret_block secret i (k + 1) n (pre ++ (l ++ post)) =
      otp_byte_secret_block secret i k (v : Int)
        (pre ++ ((if 3 - ((5 * (8 - (k + 1)) % 8 : Nat) : Int) < 0 then
          (l.set ((8 - (k + 1)) * 5 / 8) ((l.getD ((8 - (k + 1)) * 5 / 8) 0
              ||| shiftBy v (3 - ((5 * (8 - (k + 1)) % 8 : Nat) : Int))) % 256)).set
            ((8 - (k + 1)) * 5 / 8 + 1)
            (shiftBy v (8 + (3 - ((5 * (8 - (k + 1)) % 8 : Nat) : Int))) % 256)
        else l.set ((8 - (k + 1)) * 5 / 8) ((l.getD ((8 - (k + 1)) * 5 / 8) 0
              ||| shiftBy v (3 - ((5 * (8 - (k + 1)) % 8 : Nat) : Int))) % 256)) ++ post)) := by
  obtain ⟨hs, _⟩ := symbol_of_value c v n hv
  rw [otp_byte_secret_block]
  simp only [hr, hs]
  rw [if_neg (by omega), otp_byte_secret_store_mid pre l post i _ _ hpre hl (by omega)]
  simp only [Int.toNat_ofNat]

theorem or_low (x y k : Nat) (hx : x % 2 ^ k = 0) (hy : y < 2 ^ k) : x ||| y = x + y := by
  have h : x = 2 ^ k * (x / 2 ^ k) := by
    have := Nat.div_add_mod x (2 ^ k)
    omega
  rw [h]
  exact (Nat.mul_add_lt_is_or hy _).symm

/-- The shifts of the eight block positions, with their constant shift counts. -/
theorem shiftBy_cases :
    (∀ n, shiftBy n 3 = n * 8) ∧ (∀ n, shiftBy n (-2) = n / 4) ∧ (∀ n, shiftBy n 6 = n * 64)
    ∧ (∀ n, shiftBy n 1 = n * 2) ∧ (∀ n, shiftBy n (-4) = n / 16)
    ∧ (∀ n, shiftBy n 4 = n * 16) ∧ (∀ n, shiftBy n (-1) = n / 2)
    ∧ (∀ n, shiftBy n 7 = n * 128) ∧ (∀ n, shiftBy n 2 = n * 4)
    ∧ (∀ n, shiftBy n (-3) = n / 8) ∧ (∀ n, shiftBy n 5 = n * 32)
    ∧ (∀ n, shiftBy n 0 = n) := by
  have t0 : (0 : Int).toNat = 0 := rfl
  have t1 : (1 : Int).toNat = 1 := rfl
  have t2 : (2 : Int).toNat = 2 := rfl
  have t3 : (3 : Int).toNat = 3 := rfl
  have t4 : (4 : Int).toNat = 4 := rfl
  have t5 : (5 : Int).toNat = 5 := rfl
  have t6 : (6 : Int).toNat = 6 := rfl
  have t7 : (7 : Int).toNat = 7 := rfl
  unfold shiftBy
  norm_num [Nat.shiftLeft_eq, Nat.shiftRight_eq_div_pow, t0, t1, t2, t3, t4, t5, t6, t7]

/-- A block of eight valid symbols is decoded into the 5 bytes of RFC 4648, whatever the
buffer held in the cells of the block after its first cell was cleared; the inner loop ends
with `n` equal to the value of the last symbol. -/
theorem otp_byte_secret_block_full (secret pre post : List Nat) (i : Nat)
    (c0 c1 c2 c3 c4 c5 c6 c7 v0 v1 v2 v3 v4 v5 v6 v7 x1 x2 x3 x4 : Nat) (n : Int)
    (hpre : pre.length = i * 5)
    (hr0 : readSecret secret (i * 8 + 0) = some c0)
    (hr1 : readSecret secret (i * 8 + 1) = some c1)
    (hr2 : readSecret secret (i * 8 + 2) = some c2)
    (hr3 : readSecret secret (i * 8 + 3) = some c3)
    (hr4 : readSecret secret (i * 8 + 4) = some c4)
    (hr5 : readSecret secret (i * 8 + 5) = some c5)
    (hr6 : readSecret secret (i * 8 + 6) = some c6)
    (hr7 : readSecret secret (i * 8 + 7) = some c7)
    (hv0 : base32_value c0 = some v0) (hv1 : base32_value c1 = some v1)
    (hv2 : base32_value c2 = some v2) (hv3 : base32_value c3 = some v3)
    (hv4 : base32_value c4 = some v4) (hv5 : base32_value c5 = some v5)
    (hv6 : base32_value c6 = some v6) (hv7 : base32_value c7 = some v7) :
    otp_byte_secret_block secret i 8 n (pre ++ ([0, x1, x2, x3, x4] ++ post))
      = some ((v7 : Int), pre ++ (rfc4648_block v0 v1 v2 v3 v4 v5 v6 v7 ++ post)) := by
  obtain ⟨_, b0⟩ := symbol_of_value c0 v0 0 hv0
  obtain ⟨_, b1⟩ := symbol_of_value c1 v1 0 hv1
  obtain ⟨_, b2⟩ := symbol_of_value c2 v2 0 hv2
  obtain ⟨_, b3⟩ := symbol_of_value c3 v3 0 hv3
  obtain ⟨_, b4⟩ := symbol_of_value c4 v4 0 hv4
  obtain ⟨_, b5⟩ := symbol_of_value c5 v5 0 hv5
  obtain ⟨_, b6⟩ := symbol_of_value c6 v6 0 hv6
  obtain ⟨_, b7⟩ := symbol_of_value c7 v7 0 hv7
  obtain ⟨e3, em2, e6, e1, em4, e4, em1, e7, e2, em3, e5, e0⟩ := shiftBy_cases
  have s0 : otp_byte_secret_block secret i 8 n (pre ++ ([0, x1, x2, x3, x4] ++ post))
      = otp_byte_secret_block secret i 7 (v0 : Int)
        (pre ++ ([v0 * 8, x1, x2, x3, x4] ++ post)) := by
    rw [otp_byte_secret_block_step secret pre [0, x1, x2, x3, x4] post i 7 c0 v0 _ (by omega)
      hr0 hv0 hpre rfl]
    refine congrArg
      (fun l => otp_byte_secret_block secret i 7 (v0 : Int) (pre ++ (l ++ post))) ?_
    norm_num [e3, em2, e6, e1, em4, e4, em1, e7, e2, em3, e5, e0]
    try omega
  have s1 : otp_byte_secret_block secret i 7 (v0 : Int) (pre ++ ([v0 * 8, x1, x2, x3, x4] ++ post))
      = otp_byte_secret_block secret i 6 (v1 : Int)
        (pre ++ ([v0 * 8 + v1 / 4, v1 % 4 * 64, x2, x3, x4] ++ post)) := by
    rw [otp_byte_secret_block_step secret pre [v0 * 8, x1, x2, x3, x4] post i 6 c1 v1 _ (by omega)
      hr1 hv1 hpre rfl]
    refine congrArg
      (fun l => otp_byte_secret_block secret i 6 (v1 : Int) (pre ++ (l ++ post))) ?_
    have e : v0 * 8 ||| v1 / 4 = v0 * 8 + v1 / 4 := or_low _ _ 3 (by omega) (by omega)
    norm_num [e3, em2, e6, e1, em4, e4, em1, e7, e2, em3, e5, e0, e]
    try omega
  have s2 : otp_byte_secret_block secret i 6 (v1 : Int) (pre ++ ([v0 * 8 + v1 / 4, v1 % 4 * 64, x2, x3, x4] ++ post))
      = otp_byte_secret_block secret i 5 (v2 : Int)
        (pre ++ ([v0 * 8 + v1 / 4, v1 % 4 * 64 + v2 * 2, x2, x3, x4] ++ post)) := by
    rw [otp_byte_secret_block_step secret pre [v0 * 8 + v1 / 4, v1 % 4 * 64, x2, x3, x4] post i 5 c2 v2 _ (by omega)
      hr2 hv2 hpre rfl]
    refine congrArg
      (fun l => otp_byte_secret_block secret i 5 (v2 : Int) (pre ++ (l ++ post))) ?_
    have e : v1 % 4 * 64 ||| v2 * 2 = v1 % 4 * 64 + v2 * 2 := or_low _ _ 6 (by omega) (by omega)
    norm_num [e3, em2, e6, e1, em4, e4, em1, e7, e2, em3, e5, e0, e]
    try omega
  have s3 : otp_byte_secret_block secret i 5 (v2 : Int) (pre ++ ([v0 * 8 + v1 / 4, v1 % 4 * 64 + v2 * 2, x2, x3, x4] ++ post))
      = otp_byte_secret_block secret i 4 (v3 : Int)
        (pre ++ ([v0 * 8 + v1 / 4, v1 % 4 * 64 + v2 * 2 + v3 / 16, v3 % 16 * 16, x3, x4] ++ post)) := by
    rw [otp_byte_secret_block_step secret pre [v0 * 8 + v1 / 4, v1 % 4 * 64 + v2 * 2, x2, x3, x4] post i 4 c3 v3 _ (by omega)
      hr3 hv3 hpre rfl]
    refine congrArg
      (fun l => otp_byte_secret_block secret i 4 (v3 : Int) (pre ++ (l ++ post))) ?_
    have e : v1 % 4 * 64 + v2 * 2 ||| v3 / 16 = v1 % 4 * 64 + v2 * 2 + v3 / 16 := or_low _ _ 1 (by omega) (by omega)
    norm_num [e3, em2, e6, e1, em4, e4, em1, e7, e2, em3, e5, e0, e]
    try omega
  have s4 : otp_byte_secret_block secret i 4 (v3 : Int) (pre ++ ([v0 * 8 + v1 / 4, v1 % 4 * 64 + v2 * 2 + v3 / 16, v3 % 16 * 16, x3, x4] ++ post))
      = otp_byte_secret_block secret i 3 (v4 : Int)
        (pre ++ ([v0 * 8 + v1 / 4, v1 % 4 * 64 + v2 * 2 + v3 / 16, v3 % 16 * 16 + v4 / 2, v4 % 2 * 128, x4] ++ post)) := by
    rw [otp_byte_secret_block_step secret pre [v0 * 8 + v1 / 4, v1 % 4 * 64 + v2 * 2 + v3 / 16, v3 % 16 * 16, x3, x4] post i 3 c4 v4 _ (by omega)
      hr4 hv4 hpre rfl]
    refine congrArg
      (fun l => otp_byte_secret_block secret i 3 (v4 : Int) (pre ++ (l ++ post))) ?_
    have e : v3 % 16 * 16 ||| v4 / 2 = v3 % 16 * 16 + v4 / 2 := or_low _ _ 4 (by omega) (by omega)
    norm_num [e3, em2, e6, e1, em4, e4, em1, e7, e2, em3, e5, e0, e]
    try omega
  have s5 : otp_byte_secret_block secret i 3 (v4 : Int) (pre ++ ([v0 * 8 + v1 / 4, v1 % 4 * 64 + v2 * 2 + v3 / 16, v3 % 16 * 16 + v4 / 2, v4 % 2 * 128, x4] ++ post))
      = otp_byte_secret_block secret i 2 (v5 : Int)
        (pre ++ ([v0 * 8 + v1 / 4, v1 % 4 * 64 + v2 * 2 + v3 / 16, v3 % 16 * 16 + v4 / 2, v4 % 2 * 128 + v5 * 4, x4] ++ post)) := by
    rw [otp_byte_secret_block_step secret pre [v0 * 8 + v1 / 4, v1 % 4 * 64 + v2 * 2 + v3 / 16, v3 % 16 * 16 + v4 / 2, v4 % 2 * 128, x4] post i 2 c5 v5 _ (by omega)
      hr5 hv5 hpre rfl]
    refine congrArg
      (fun l => otp_byte_secret_block secret i 2 (v5 : Int) (pre ++ (l ++ post))) ?_
    have e : v4 % 2 * 128 ||| v5 * 4 = v4 % 2 * 128 + v5 * 4 := or_low _ _ 7 (by omega) (by omega)
    norm_num [e3, em2, e6, e1, em4, e4, em1, e7, e2, em3, e5, e0, e]
    try omega
  have s6 : otp_byte_secret_block secret i 2 (v5 : Int) (pre ++ ([v0 * 8 + v1 / 4, v1 % 4 * 64 + v2 * 2 + v3 / 16, v3 % 16 * 16 + v4 / 2, v4 % 2 * 128 + v5 * 4, x4] ++ post))
      = otp_byte_secret_block secret i 1 (v6 : Int)
        (pre ++ ([v0 * 8 + v1 / 4, v1 % 4 * 64 + v2 * 2 + v3 / 16, v3 % 16 * 16 + v4 / 2, v4 % 2 * 128 + v5 * 4 + v6 / 8, v6 % 8 * 32] ++ post)) := by
    rw [otp_byte_secret_block_step secret pre [v0 * 8 + v1 / 4, v1 % 4 * 64 + v2 * 2 + v3 / 16, v3 % 16 * 16 + v4 / 2, v4 % 2 * 128 + v5 * 4, x4] post i 1 c6 v6 _ (by omega)
      hr6 hv6 hpre rfl]
    refine congrArg
      (fun l => otp_byte_secret_block secret i 1 (v6 : Int) (pre ++ (l ++ post))) ?_
    have e : v4 % 2 * 128 + v5 * 4 ||| v6 / 8 = v4 % 2 * 128 + v5 * 4 + v6 / 8 := or_low _ _ 2 (by omega) (by omega)
    norm_num [e3, em2, e6, e1, em4, e4, em1, e7, e2, em3, e5, e0, e]
    try omega
  have s7 : otp_byte_secret_block secret i 1 (v6 : Int) (pre ++ ([v0 * 8 + v1 / 4, v1 % 4 * 64 + v2 * 2 + v3 / 16, v3 % 16 * 16 + v4 / 2, v4 % 2 * 128 + v5 * 4 + v6 / 8, v6 % 8 * 32] ++ post))
      = otp_byte_secret_block secret i 0 (v7 : Int)
        (pre ++ ([v0 * 8 + v1 / 4, v1 % 4 * 64 + v2 * 2 + v3 / 16, v3 % 16 * 16 + v4 / 2, v4 % 2 * 128 + v5 * 4 + v6 / 8, v6 % 8 * 32 + v7] ++ post)) := by
    rw [otp_byte_secret_block_step secret pre [v0 * 8 + v1 / 4, v1 % 4 * 64 + v2 * 2 + v3 / 16, v3 % 16 * 16 + v4 / 2, v4 % 2 * 128 + v5 * 4 + v6 / 8, v6 % 8 * 32] post i 0 c7 v7 _ (by omega)
      hr7 hv7 hpre rfl]
    refine congrArg
      (fun l => otp_byte_secret_block secret i 0 (v7 : Int) (pre ++ (l ++ post))) ?_
    have e : v6 % 8 * 32 ||| v7 = v6 % 8 * 32 + v7 := or_low _ _ 5 (by omega) (by omega)
    norm_num [e3, em2, e6, e1, em4, e4, em1, e7, e2, em3, e5, e0, e]
    try omega
  rw [s0, s1, s2, s3, s4, s5, s6, s7]
  have hb : [v0 * 8 + v1 / 4, v1 % 4 * 64 + v2 * 2 + v3 / 16, v3 % 16 * 16 + v4 / 2,
      v4 % 2 * 128 + v5 * 4 + v6 / 8, v6 % 8 * 32 + v7]
      = rfc4648_block v0 v1 v2 v3 v4 v5 v6 v7 := by
    unfold rfc4648_block
    simp only [List.cons.injEq, and_true]
    refine ⟨?_, ?_, ?_, ?_, ?_⟩ <;> omega
  rw [hb]
  rfl


theorem readSecret_append (pfx sfx : List Nat) (i j : Nat) (hp : pfx.length = i * 8)
    (hj : j < sfx.length) : readSecret (pfx ++ sfx) (i * 8 + j) = some (sfx.getD j 0) := by
  unfold readSecret
  rw [← hp, List.append_assoc, List.getElem?_append_right (by omega), Nat.add_sub_cancel_left,
    List.getElem?_append_left hj, List.getD_eq_getElem?_getD, List.getElem?_eq_getElem hj]
  rfl

theorem rfc4648_block_length (v0 v1 v2 v3 v4 v5 v6 v7 : Nat) :
    (rfc4648_block v0 v1 v2 v3 v4 v5 v6 v7).length = 5 := rfl

/-- The outer loop on a secret of full blocks of valid symbols in which the last symbol of
every block but the last has a value of 5 or more: started at block `i` on a buffer whose
first `i * 5` bytes are `pre`, it leaves `pre` followed by the RFC 4648 decoding of the
remaining blocks. -/
theorem otp_byte_secret_loop_decode :
    ∀ (m : Nat) (sfx pfx pre tail bytes : List Nat) (i fuel : Nat),
      sfx.length = 8 * m → pfx.length = i * 8 → pre.length = i * 5 →
      rfc4648_decode sfx = some bytes →
      (∀ b v, (b + 1) * 8 < sfx.length → base32_value (sfx.getD (b * 8 + 7) 0) = some v →
        5 ≤ v) →
      m + 1 ≤ fuel → 5 * m + 1 ≤ tail.length →
      ∃ rest, otp_byte_secret_loop (pfx ++ sfx) fuel i (pre ++ tail)
        = some (pre ++ (bytes ++ rest)) := by
  intro m
  induction m with
  | zero =>
    intro sfx pfx pre tail bytes i fuel hs hp hpre hdec _ hf ht
    have hnil : sfx = [] := List.length_eq_zero.mp (by omega)
    subst hnil
    cases hdec
    obtain ⟨fuel, rfl⟩ : ∃ f, fuel = f + 1 := ⟨fuel - 1, by omega⟩
    cases tail with
    | nil => simp at ht
    | cons t0 tl =>
      have hw := writeByte_mid pre [t0] tl 0 0 (by simp)
      rw [Nat.add_zero, hpre] at hw
      have hc : readSecret (pfx ++ []) (i * 8) = some 0 := by
        rw [List.append_nil, ← hp]
        exact readSecret_length pfx
      unfold otp_byte_secret_loop
      rw [show pre ++ t0 :: tl = pre ++ ([t0] ++ tl) from rfl, hw]
      simp only []
      rw [otp_byte_secret_block_stop _ i 0 _ hc (by omega) (by omega)]
      exact ⟨_, rfl⟩
  | succ m ih =>
    intro sfx pfx pre tail bytes i fuel hs hp hpre hdec hgood hf ht
    obtain ⟨fuel, rfl⟩ : ∃ f, fuel = f + 1 := ⟨fuel - 1, by omega⟩
    match sfx, hs, hdec, hgood with
    | c0 :: c1 :: c2 :: c3 :: c4 :: c5 :: c6 :: c7 :: rest, hs, hdec, hgood =>
      match tail, ht with
      | t0 :: x1 :: x2 :: x3 :: x4 :: post, ht =>
        simp only [List.length_cons] at hs ht
        unfold rfc4648_decode at hdec
        split at hdec
        · rename_i v0 v1 v2 v3 v4 v5 v6 v7 bytes1 hv0 hv1 hv2 hv3 hv4 hv5 hv6 hv7 hrest
          have hbytes := Option.some.inj hdec
          have hsl : 0 + 7 < (c0 :: c1 :: c2 :: c3 :: c4 :: c5 :: c6 :: c7 :: rest).length := by
            simp only [List.length_cons]; omega
          have hr : ∀ j, j < 8 →
              readSecret (pfx ++ c0 :: c1 :: c2 :: c3 :: c4 :: c5 :: c6 :: c7 :: rest)
                (i * 8 + j)
              = some ((c0 :: c1 :: c2 :: c3 :: c4 :: c5 :: c6 :: c7 :: rest).getD j 0) :=
            fun j hj => readSecret_append pfx _ i j hp
              (by simp only [List.length_cons]; omega)
          have hw := writeByte_mid pre [t0, x1, x2, x3, x4] post 0 0 (by simp)
          rw [Nat.add_zero, hpre] at hw
          have hblock := otp_byte_secret_block_full
            (pfx ++ c0 :: c1 :: c2 :: c3 :: c4 :: c5 :: c6 :: c7 :: rest) pre post i
            c0 c1 c2 c3 c4 c5 c6 c7 v0 v1 v2 v3 v4 v5 v6 v7 x1 x2 x3 x4 (-1) hpre
            (hr 0 (by omega)) (hr 1 (by omega)) (hr 2 (by omega)) (hr 3 (by omega))
            (hr 4 (by omega)) (hr 5 (by omega)) (hr 6 (by omega)) (hr 7 (by omega))
            hv0 hv1 hv2 hv3 hv4 hv5 hv6 hv7
          unfold otp_byte_secret_loop
          rw [show pre ++ t0 :: x1 :: x2 :: x3 :: x4 :: post
            = pre ++ ([t0, x1, x2, x3, x4] ++ post) from rfl, hw]
          simp only [List.set_cons_zero, Nat.zero_mod]
          rw [hblock]
          simp only []
          by_cases hlt : (v7 : Int) < 5
          · rw [if_pos hlt]
            have hm : m = 0 := by
              by_contra hne
              have := hgood 0 v7 (by simp only [List.length_cons]; omega) hv7
              omega
            subst hm
            have hnil : rest = [] := List.length_eq_zero.mp (by omega)
            subst hnil
            unfold rfc4648_decode at hrest
            cases hrest
            refine ⟨post, ?_⟩
            rw [← hbytes, List.append_nil]
          · rw [if_neg hlt]
            have hgood1 : ∀ b v, (b + 1) * 8 < rest.length →
                base32_value (rest.getD (b * 8 + 7) 0) = some v → 5 ≤ v := by
              intro b v hb hv
              refine hgood (b + 1) v (by simp only [List.length_cons]; omega) ?_
              have e : (b + 1) * 8 + 7 = (b * 8 + 7) + 8 := by omega
              rw [e]
              exact hv
            obtain ⟨r, hr1⟩ := ih rest (pfx ++ [c0, c1, c2, c3, c4, c5, c6, c7])
              (pre ++ rfc4648_block v0 v1 v2 v3 v4 v5 v6 v7) post bytes1 (i + 1) fuel
              (by omega) (by simp only [List.length_append, List.length_cons,
                List.length_nil]; omega)
              (by rw [List.length_append, rfc4648_block_length]; omega) hrest hgood1
              (by omega) (by omega)
            refine ⟨r, ?_⟩
            simp only [List.append_assoc, List.cons_append, List.nil_append] at hr1
            rw [hr1, ← hbytes, List.append_assoc]
        · cases hdec

/-! ## The time step -/

theorem toInt32_of_ge (x : Int) (h0 : 2147483648 ≤ x) (h1 : x < 4294967296) :
    toInt32 x = x - 4294967296 := by
  unfold toInt32
  split <;> omega

/-- The time step when the quotient fits an `int`. -/
theorem totp_timecode_eq (data : OTPData) (t : Nat) (hi : 0 < data.interval)
    (hq : t / data.interval < 2147483648) :
    totp_timecode data t = ((t / data.interval : Nat) : Int) := by
  unfold totp_timecode
  rw [if_neg (by omega)]
  exact toInt32_of_lt _ (Int.ofNat_nonneg _) (by exact_mod_cast hq)

theorem div_lt_of_two_le (t i : Nat) (ht : t < 4294967296) (hi : 2 ≤ i) :
    t / i < 2147483648 := by
  have h := Nat.div_le_div_left hi (by omega : 0 < 2) (a := t)
  omega

/-! ## Reads of the truncation, totality of the RFC 4648 decoding -/

theorem getElem?_eq_some_getD (d : List Nat) (i : Nat) (h : i < d.length) :
    d[i]? = some (d.getD i 0) := by
  rw [List.getD_eq_getElem?_getD, List.getElem?_eq_getElem h]
  rfl

/-- The truncation of a digest of 19 bytes or more reads the digest only, whatever the
cells hold. -/
theorem truncate_reads (d rest : List Nat) (hlen : 19 ≤ d.length) :
    truncate (d ++ rest) ((d.length : Nat) : Int) =
      some ((d.getD (d.getD (d.length - 1) 0 &&& 0xF) 0 &&& 0x7F) <<< 24
        ||| (d.getD ((d.getD (d.length - 1) 0 &&& 0xF) + 1) 0 &&& 0xFF) <<< 16
        ||| (d.getD ((d.getD (d.length - 1) 0 &&& 0xF) + 2) 0 &&& 0xFF) <<< 8
        ||| (d.getD ((d.getD (d.length - 1) 0 &&& 0xF) + 3) 0 &&& 0xFF)) := by
  have ho : d.getD (d.length - 1) 0 &&& 0xF ≤ 0xF := Nat.and_le_right
  have hr : readAt (d ++ rest) (((d.length : Nat) : Int) - 1)
      = some (d.getD (d.length - 1) 0) := by
    unfold readAt
    rw [if_neg (by omega)]
    have e : (((d.length : Nat) : Int) - 1).toNat = d.length - 1 := by omega
    rw [e]
    exact getElem?_append_getD d rest _ (by omega)
  unfold truncate
  rw [hr]
  simp only []
  rw [getElem?_append_getD d rest _ (by omega), getElem?_append_getD d rest _ (by omega),
    getElem?_append_getD d rest _ (by omega), getElem?_append_getD d rest _ (by omega)]

theorem base32_value_of_char (c : Nat) (h : (65 ≤ c ∧ c ≤ 90) ∨ (50 ≤ c ∧ c ≤ 55)) :
    ∃ v, base32_value c = some v := by
  unfold base32_value
  by_cases h1 : 65 ≤ c ∧ c ≤ 90
  · rw [if_pos h1]
    exact ⟨_, rfl⟩
  · rw [if_neg h1, if_pos (by omega)]
    exact ⟨_, rfl⟩

/-- A text of `8 * m` symbols of the alphabet has an RFC 4648 decoding of `5 * m`
bytes. -/
theorem rfc4648_decode_total : ∀ (m : Nat) (text : List Nat), text.length = 8 * m →
    (∀ c ∈ text, (65 ≤ c ∧ c ≤ 90) ∨ (50 ≤ c ∧ c ≤ 55)) →
    ∃ bytes, rfc4648_decode text = some bytes ∧ bytes.length = 5 * m := by
  intro m
  induction m with
  | zero =>
    intro text hl _
    have hnil : text = [] := List.length_eq_zero.mp (by omega)
    subst hnil
    exact ⟨[], rfl, rfl⟩
  | succ m ih =>
    intro text hl hc
    match text, hl, hc with
    | c0 :: c1 :: c2 :: c3 :: c4 :: c5 :: c6 :: c7 :: rest, hl, hc =>
      simp only [List.length_cons] at hl
      obtain ⟨v0, h0⟩ := base32_value_of_char c0 (hc c0 (by simp))
      obtain ⟨v1, h1⟩ := base32_value_of_char c1 (hc c1 (by simp))
      obtain ⟨v2, h2⟩ := base32_value_of_char c2 (hc c2 (by simp))
      obtain ⟨v3, h3⟩ := base32_value_of_char c3 (hc c3 (by simp))
      obtain ⟨v4, h4⟩ := base32_value_of_char c4 (hc c4 (by simp))
      obtain ⟨v5, h5⟩ := base32_value_of_char c5 (hc c5 (by simp))
      obtain ⟨v6, h6⟩ := base32_value_of_char c6 (hc c6 (by simp))
      obtain ⟨v7, h7⟩ := base32_value_of_char c7 (hc c7 (by simp))
      obtain ⟨bytes, hb, hbl⟩ := ih rest (by omega) (fun c hm => hc c (by simp [hm]))
      refine ⟨rfc4648_block v0 v1 v2 v3 v4 v5 v6 v7 ++ bytes, ?_, ?_⟩
      · unfold rfc4648_decode
        rw [h0, h1, h2, h3, h4, h5, h6, h7, hb]
      · rw [List.length_append, rfc4648_block_length, hbl]
        omega

/-! ## Generation with and without a text buffer, HOTP comparison -/

theorem writeStr_length (buf text out : List Nat) (h : writeStr buf text = some out) :
    out.length = buf.length := by
  obtain ⟨hroom, ho⟩ := writeStr_inv buf text out h
  rw [ho, List.length_append, List.length_cons, List.length_drop]
  omega

/-- A call with a text buffer that returns a non-zero code wrote the text of the code, and
the call with a null `out_str` returns the same code. -/
theorem otp_generate_of_buffer (data : OTPData) (input : Int) (out : List Nat) (r : Int)
    (out1 : Option (List Nat)) (hd : 1 ≤ data.digits)
    (h : otp_generate data input (some out) = some (r, out1)) (hr : r ≠ 0) :
    0 ≤ r ∧ r < ((10 ^ data.digits : Nat) : Int) ∧ data.digits + 1 ≤ out.length
      ∧ out1 = some (sprintf_0Nd data.digits r ++ 0 :: out.drop (data.digits + 1))
      ∧ otp_generate data input none = some (r, none) := by
  rcases otp_generate_inv data input (some out) (r, out1) h with h1 | ⟨h0, hmac, hh, hc⟩
  · exact absurd (Prod.mk.inj h1).1 hr
  · obtain ⟨c0, c1, c2, c3, c4⟩ := otp_generate_code_inv data hmac out r out1 hd hc
    refine ⟨c0, c1, c2, c3, ?_⟩
    unfold otp_generate
    rw [if_neg (by omega), hh]
    exact c4

/-- The code returned with a null `out_str` is also returned with a buffer that has room
for the text. -/
theorem otp_generate_some_of_none (data : OTPData) (input : Int) (out : List Nat)
    (code : Int) (hd : 1 ≤ data.digits) (hroom : data.digits + 1 ≤ out.length)
    (h : otp_generate data input none = some (code, none)) :
    ∃ out1, otp_generate data input (some out) = some (code, some out1) := by
  unfold otp_generate at h ⊢
  by_cases hin : input < 0
  · rw [if_pos hin] at h
    rw [if_pos hin]
    have hc := (Prod.mk.inj (Option.some.inj h)).1
    exact ⟨out, by rw [hc]⟩
  · rw [if_neg hin] at h
    rw [if_neg hin]
    generalize otp_generate_hmac data input = hh at h ⊢
    cases hh with
    | none => cases h
    | some o =>
      cases o with
      | none =>
        have hc := (Prod.mk.inj (Option.some.inj h)).1
        exact ⟨out, by rw [hc]⟩
      | some hmac =>
        exact ⟨_, (otp_generate_code_of_none data hmac out code hd hroom h).1⟩

/-- A successful `hotp_compares` on an 8-byte key: the key starts with the zero-padded
text of the non-zero code generated for the counter, followed by a NUL. -/
theorem hotp_compares_one_inv (data : OTPData) (key : List Nat) (counter : Nat)
    (hd : 1 ≤ data.digits) (hk : key.length = 8)
    (h : hotp_compares data key counter = some 1) :
    ∃ code rest, code ≠ 0 ∧ 0 ≤ code
      ∧ otp_generate data (toInt32 counter) none = some (code, none)
      ∧ key = sprintf_0Nd data.digits code ++ 0 :: rest := by
  unfold hotp_compares hotp_at at h
  cases hw : writeStr (List.replicate 8 0) (sprintf_u counter) with
  | none => rw [hw] at h; cases h
  | some cnt =>
    have hcl : cnt.length = 8 := by
      rw [writeStr_length _ _ _ hw, List.length_replicate]
    rw [hw] at h
    simp only [] at h
    cases hg : otp_generate data (toInt32 counter) (some cnt) with
    | none => rw [hg] at h; cases h
    | some res =>
      obtain ⟨r, o⟩ := res
      rw [hg] at h
      cases o with
      | none => cases h
      | some cnt1 =>
        simp only [] at h
        by_cases hr : r = 0
        · rw [if_pos hr] at h
          exact absurd (Option.some.inj h) (by decide)
        · rw [if_neg hr] at h
          obtain ⟨g0, g1, g2, g3, g4⟩ :=
            otp_generate_of_buffer data (toInt32 counter) cnt r (some cnt1) hd hg hr
          have hc1 := Option.some.inj g3
          have hl := sprintf_0Nd_length data.digits r hd g0 g1
          have hlen1 : cnt1.length = 8 := by
            rw [hc1, List.length_append, List.length_cons, List.length_drop, hl]
            omega
          rw [compare_loop_eq key cnt1 hk hlen1] at h
          by_cases he : key = cnt1
          · exact ⟨r, _, hr, g0, g4, by rw [he, hc1]⟩
          · rw [if_neg he] at h
            exact absurd (Option.some.inj h) (by decide)

/-! ## Claims -/

/-- C1 (code defect): the secret `MFQWCYLBMJRGEYTC` is made of `A-Z`/`2-7`, has 16
characters and is the RFC 4648 encoding of `aaaaabbbbb`, yet `otp_byte_secret` returns 1
with only `aaaaa` decoded: the first block ends in `B` (value 1), the test `n < 5` reads
that symbol value as a byte count and ends the decode, and bytes 5..9 keep their zeros. -/
theorem C1_decode_stops_after_low_symbol :
    rfc4648_decode (bytesOf "MFQWCYLBMJRGEYTC") = some (bytesOf "aaaaabbbbb")
    ∧ otp_byte_secret (secret_data "MFQWCYLBMJRGEYTC") 16 (some (List.replicate 11 0))
      = some (1, some (bytesOf "aaaaa" ++ [0, 0, 0, 0, 0, 0])) := by
  decide

/-- C2: for `digits` in 1..9, a digest length `bits/8` of 20 or more and below `2^31 - 1`
(so that the `int` sum `bit_size+1` of the digest buffer does not overflow), a counter
`0 ≤ c < 2^31` and a secret that decodes to `key` (the decoded bytes and the final zero of
the buffer): if the hash, called on `key` and on the 8-byte big-endian encoding of `c`
(followed by the final zero of its buffer), answers the digest `d` of `bits/8` bytes, then
`otp_generate` returns `dynamic_truncation d (bits/8) mod 10^digits`, whether `out_str` is
null or has room for the text.  The hash is arbitrary, so the result can only come from
that call. -/
theorem C2_generate_value (data : OTPData) (c : Int) (key d : List Nat)
    (out_str : Option (List Nat)) (hd : 1 ≤ data.digits ∧ data.digits ≤ 9)
    (hbits : 20 ≤ data.bits / 8 ∧ data.bits / 8 < 2147483647)
    (hc : 0 ≤ c ∧ c < 2147483648)
    (hkey : otp_byte_secret data data.base32_secret.length
      (some (List.replicate (desired_secret_len data + 1) 0)) = some (1, some key))
    (hhash : data.algo key (big_endian_8 c.toNat ++ [0]) = some d)
    (hlen : d.length = data.bits / 8) (hbyte : ∀ b ∈ d, b < 256)
    (hroom : ∀ out, out_str = some out → data.digits + 1 ≤ out.length) :
    ∃ out1, otp_generate data c out_str
      = some (((dynamic_truncation d (data.bits / 8) % 10 ^ data.digits : Nat) : Int), out1) := by
  rw [← counter_buffer_eq c hc.1 hc.2] at hhash
  exact otp_generate_value data c key d out_str hd ⟨by omega, hbits.2⟩ hc.1 hkey hhash hlen
    hbyte hroom

theorem C2_generate_value_witness :
    ∃ out1, otp_generate (rfc_data 6) 1 none
      = some (((dynamic_truncation
          [0x75, 0xa4, 0x8a, 0x19, 0xd4, 0xcb, 0xe1, 0x00, 0x64, 0x4e,
           0x8a, 0xc1, 0x39, 0x7e, 0xea, 0x74, 0x7a, 0x2d, 0x33, 0xab]
          ((rfc_data 6).bits / 8) % 10 ^ (rfc_data 6).digits : Nat) : Int), out1) :=
  C2_generate_value (rfc_data 6) 1 (bytesOf "12345678901234567890" ++ [0])
    [0x75, 0xa4, 0x8a, 0x19, 0xd4, 0xcb, 0xe1, 0x00, 0x64, 0x4e,
     0x8a, 0xc1, 0x39, 0x7e, 0xea, 0x74, 0x7a, 0x2d, 0x33, 0xab]
    none (by decide) (by decide) (by decide) (by decide) (by decide) (by decide) (by decide)
    (fun _ h => nomatch h)

/-- C3 (counterexample): with the RFC 4226 secret, one digit and a 30 second interval,
the time 59 lies in step 1 and the code for step `1 + 1` is 2; `totp_verify` with window 1
accepts it, because the code for step 1 (offset 0) is 2 as well, although `k = 1` is not
below the window 1. -/
theorem C3_counterexample :
    totp_timecode (rfc_data 1) 59 = 1
    ∧ otp_generate (rfc_data 1) (1 + 1) none = some (2, none)
    ∧ totp_verify (rfc_data 1) 2 59 1 = some 1
    ∧ ¬ (-(1 : Int) ≤ 1 ∧ (1 : Int) < 1) := by
  decide

/-- C3 (amended): let `digits` be in 1..7, the digest length `bits/8` in `[20, 2^31)`, the
digests of the hash fit the digest buffer, `valid_window ≥ 0`, and let `code` be the value
generated for the counter `totp_timecode(t) + k`, a non-negative `int`, with `code` of
full width (`10^(digits-1) ≤ code`).  If `k` is in the searched set (`k = 0` for window 0,
`-valid_window ≤ k < valid_window` otherwise) then `totp_verify` returns 1; and if
`totp_verify` returns 1 then `code` is the value generated for the counter
`totp_timecode(t) + i` of some offset `i` of the searched set, which need not be `k`. -/
theorem C3_window (data : OTPData) (t : Nat) (w k code : Int)
    (hd : 1 ≤ data.digits ∧ data.digits ≤ 7)
    (hbits : 20 ≤ data.bits / 8 ∧ data.bits / 8 < 2147483648)
    (hfit : ∀ key msg d, data.algo key msg = some d → d.length ≤ data.bits / 8 + 1)
    (hw : 0 ≤ w)
    (hk : 0 ≤ totp_timecode data t + k ∧ totp_timecode data t + k < 2147483648)
    (hcode : otp_generate data (totp_timecode data t + k) none = some (code, none))
    (hlead : ((10 ^ (data.digits - 1) : Nat) : Int) ≤ code) :
    ((w = 0 ∧ k = 0 ∨ 0 < w ∧ -w ≤ k ∧ k < w) → totp_verify data code t w = some 1)
    ∧ (totp_verify data code t w = some 1 →
        ∃ i : Int, (w = 0 ∧ i = 0 ∨ 0 < w ∧ -w ≤ i ∧ i < w)
          ∧ otp_generate data (toInt32 (totp_timecode data t + i)) none
            = some (code, none)) := by
  have hb18 : 18 ≤ data.bits / 8 ∧ data.bits / 8 < 2147483648 := ⟨by omega, hbits.2⟩
  have hpow : (0 : Int) < ((10 ^ (data.digits - 1) : Nat) : Int) :=
    (mod_pow_bounds 1 _).1.trans_lt (mod_pow_bounds 1 _).2
  have hc0 : 0 ≤ code := by omega
  -- the bounds of the code, from the run with a buffer
  obtain ⟨code1, hg1, _, hlt1, _⟩ := otp_generate_defined data (totp_timecode data t + k)
    (List.replicate 8 0) ⟨hd.1, by omega⟩ hb18 hfit
    (by simp only [List.length_replicate]; omega)
  have hce : code1 = code := by
    rw [hcode] at hg1
    exact ((Prod.mk.inj (Option.some.inj hg1)).1).symm
  subst hce
  have hkeylen : (sprintf_d code1).length ≤ 7 :=
    (sprintf_d_length code1 data.digits hd.1 hc0 hlt1).trans hd.2
  have hdef : ∀ i : Int, (w = 0 ∧ i = 0 ∨ 0 < w ∧ -w ≤ i ∧ i ≤ w - 1) →
      totp_comparei data code1 (toSizeT i) t ≠ none := by
    intro i _
    obtain ⟨c, _, _, _, hcmp⟩ := totp_comparei_eq data code1 (toSizeT i) t hd hb18 hfit hkeylen
    rw [hcmp]
    exact Option.some_ne_none _
  have hiff := totp_verify_eq_one_iff data code1 t w hw hdef
  constructor
  · intro hin
    rw [hiff]
    refine ⟨k, ?_, ?_⟩
    · rcases hin with h | ⟨h1, h2, h3⟩
      · exact Or.inl h
      · exact Or.inr ⟨h1, h2, by omega⟩
    · obtain ⟨c, hgen, _, _, hcmp⟩ :=
        totp_comparei_eq data code1 (toSizeT k) t hd hb18 hfit hkeylen
      rw [totp_counter_eq, toInt32_of_lt _ hk.1 hk.2, hcode] at hgen
      have hcc : c = code1 := ((Prod.mk.inj (Option.some.inj hgen)).1).symm
      subst hcc
      rw [hcmp, if_pos ⟨by omega, (sprintf_0Nd_eq_sprintf_d _ _ hd.1 hlead).symm⟩]
  · intro hv
    obtain ⟨i, hi, hcmp1⟩ := hiff.mp hv
    refine ⟨i, ?_, ?_⟩
    · rcases hi with h | ⟨h1, h2, h3⟩
      · exact Or.inl h
      · exact Or.inr ⟨h1, h2, by omega⟩
    · obtain ⟨c, hgen, hc0i, _, hcmp⟩ :=
        totp_comparei_eq data code1 (toSizeT i) t hd hb18 hfit hkeylen
      rw [totp_counter_eq] at hgen
      rw [hcmp] at hcmp1
      by_cases hcond : c ≠ 0 ∧ sprintf_d code1 = sprintf_0Nd data.digits c
      · have hval : (decimal_value (sprintf_d code1) : Int)
            = (decimal_value (sprintf_0Nd data.digits c) : Int) := by rw [hcond.2]
        rw [decimal_value_sprintf_d _ hc0, decimal_value_sprintf_0Nd _ _ hc0i] at hval
        rw [hval]
        exact hgen
      · rw [if_neg hcond] at hcmp1
        exact absurd (Option.some.inj hcmp1) (by decide)

theorem C3_window_witness :
    (((1 : Int) = 0 ∧ (-1 : Int) = 0 ∨ (0 : Int) < 1 ∧ -(1 : Int) ≤ -1 ∧ (-1 : Int) < 1) →
      totp_verify (rfc_data 6) 755224 59 1 = some 1)
    ∧ (totp_verify (rfc_data 6) 755224 59 1 = some 1 →
        ∃ i : Int, ((1 : Int) = 0 ∧ i = 0 ∨ (0 : Int) < 1 ∧ -(1 : Int) ≤ i ∧ i < 1)
          ∧ otp_generate (rfc_data 6) (toInt32 (totp_timecode (rfc_data 6) 59 + i)) none
            = some (755224, none)) :=
  C3_window (rfc_data 6) 59 1 (-1) 755224 (by decide) (by decide)
    (fun key msg d h => hmac_sha1_table_fit key msg d h) (by decide) (by decide) (by decide)
    (by decide)

/-- C4 (code defect): with the RFC 4226 secret and 6 digits the code for the counter 30 is
26920, written `026920` by `otp_generate`; `hotp_verify` of that code and counter returns
0, because `hotp_comparei` formats the candidate with `%d` as `26920`, without the zero
padding of the generated text. -/
theorem C4_leading_zero_rejected :
    otp_generate (rfc_data 6) 30 (some (List.replicate 8 0))
      = some (26920, some (bytesOf "026920" ++ [0, 0]))
    ∧ sprintf_d 26920 = bytesOf "26920"
    ∧ hotp_verify (rfc_data 6) 26920 30 = some 0 := by
  decide

/-- C5 (code defect): in `MFRGG===GEZDGNBV` the padding starts at position 5 of the first
block.  The block is not cut there: `n` keeps the value of the preceding `G`, so the three
`=` are decoded as `G` (bytes 3 and 4 become 24 and 198, exactly as for `MFRGGGGG`), and
since that value is not below 5 the decode goes on into the second block (`12345`). -/
theorem C5_padding_decoded_as_previous_symbol :
    otp_byte_secret (secret_data "MFRGG===GEZDGNBV") 16 (some (List.replicate 11 0))
      = some (1, some ([97, 98, 99, 24, 198] ++ bytesOf "12345" ++ [0]))
    ∧ otp_byte_secret (secret_data "MFRGGGGGGEZDGNBV") 16 (some (List.replicate 11 0))
      = some (1, some ([97, 98, 99, 24, 198] ++ bytesOf "12345" ++ [0])) := by
  decide

/-- C6: for `digits` in 1..9, a call of `otp_generate` with a non-null `out_str` that does
not take the `exit` path returns a code in `[0, 10^digits)` and leaves in `out_str` a text
of exactly `digits` characters, all decimal digits, whose decimal value is the code,
followed by the terminator. -/
theorem C6_text_of_code (data : OTPData) (input : Int) (out hmac : List Nat) (code : Int)
    (out1 : Option (List Nat)) (hd : 1 ≤ data.digits ∧ data.digits ≤ 9) (hin : 0 ≤ input)
    (hh : otp_generate_hmac data input = some (some hmac))
    (h : otp_generate data input (some out) = some (code, out1)) :
    0 ≤ code ∧ code < ((10 ^ data.digits : Nat) : Int)
      ∧ out1 = some (sprintf_0Nd data.digits code ++ 0 :: out.drop (data.digits + 1))
      ∧ (sprintf_0Nd data.digits code).length = data.digits
      ∧ (∀ c ∈ sprintf_0Nd data.digits code, 48 ≤ c ∧ c ≤ 57)
      ∧ (decimal_value (sprintf_0Nd data.digits code) : Int) = code := by
  unfold otp_generate at h
  rw [if_neg (by omega), hh] at h
  obtain ⟨h0, h1, _, h3, _⟩ := otp_generate_code_inv data hmac out code out1 hd.1 h
  exact ⟨h0, h1, h3, sprintf_0Nd_length _ _ hd.1 h0 h1,
    fun c hc => sprintf_0Nd_digits _ _ h0 c hc, decimal_value_sprintf_0Nd _ _ h0⟩

theorem C6_text_of_code_witness :
    (0 : Int) ≤ 26920 ∧ (26920 : Int) < ((10 ^ (rfc_data 6).digits : Nat) : Int)
      ∧ some (bytesOf "026920" ++ [0, 0]) = some (sprintf_0Nd (rfc_data 6).digits 26920
          ++ 0 :: (List.replicate 8 0).drop ((rfc_data 6).digits + 1))
      ∧ (sprintf_0Nd (rfc_data 6).digits 26920).length = (rfc_data 6).digits
      ∧ (∀ c ∈ sprintf_0Nd (rfc_data 6).digits 26920, 48 ≤ c ∧ c ≤ 57)
      ∧ (decimal_value (sprintf_0Nd (rfc_data 6).digits 26920) : Int) = 26920 :=
  C6_text_of_code (rfc_data 6) 30 (List.replicate 8 0)
    ([0x54, 0x3c, 0x61, 0xf8, 0xf9, 0xae, 0xb3, 0x5f, 0x6d, 0xbc,
      0x3a, 0x68, 0x47, 0xc3, 0xfe, 0x28, 0x8c, 0xc0, 0xee, 0x4c] ++ [0])
    26920 (some (bytesOf "026920" ++ [0, 0])) (by decide) (by decide) (by decide) (by decide)

/-- C7 (code defect): for the counter 1 and an 8-byte buffer that holds ones,
`otp_int_to_bytestring` returns 1 and leaves cells 0..3 as they were, so the buffer is not
the big-endian encoding `[0, 0, 0, 0, 0, 0, 0, 1]` of the counter. -/
theorem C7_top_bytes_not_written :
    otp_int_to_bytestring 1 (some [1, 1, 1, 1, 1, 1, 1, 1])
      = some (1, some [1, 1, 1, 1, 0, 0, 0, 1])
    ∧ big_endian_8 1 = [0, 0, 0, 0, 0, 0, 0, 1] := by
  decide

/-- C8 (counterexample): the secret `GEZDGNBVG` has 9 characters and its leading block
`GEZDGNBV` is the encoding of `12345`, but `otp_byte_secret` called with the length 9
returns 0 and leaves the 6 zero bytes of the output untouched: nothing is decoded. -/
theorem C8_counterexample :
    rfc4648_decode (bytesOf "GEZDGNBV") = some (bytesOf "12345")
    ∧ otp_byte_secret (secret_data "GEZDGNBVG") (bytesOf "GEZDGNBVG").length
        (some (List.replicate 6 0)) = some (0, some (List.replicate 6 0)) := by
  decide

/-- C8 (amended): when the length of the secret is not a multiple of 8, `otp_byte_secret`
called with that length returns 0 at its first test, reading no character of the secret and
leaving the output untouched, and `otp_generate` returns 0 without writing `out_str`. -/
theorem C8_length_guard (data : OTPData) (input : Int) (out out_str : Option (List Nat))
    (h : data.base32_secret.length % 8 ≠ 0) :
    otp_byte_secret data data.base32_secret.length out = some (0, out)
    ∧ otp_generate data input out_str = some (0, out_str) := by
  refine ⟨?_, otp_generate_exit data input out_str (Or.inr (Or.inl h))⟩
  unfold otp_byte_secret
  cases out with
  | none => rfl
  | some buf => simp only [ne_eq, h, not_false_eq_true, if_true]

theorem C8_length_guard_witness :
    (secret_data "GEZDGNBVG").base32_secret.length % 8 ≠ 0
    ∧ otp_byte_secret (secret_data "GEZDGNBVG") (secret_data "GEZDGNBVG").base32_secret.length
        (some [7, 7, 7, 7, 7, 7]) = some (0, some [7, 7, 7, 7, 7, 7])
    ∧ otp_generate (secret_data "GEZDGNBVG") 5 (some [7, 7, 7, 7, 7, 7, 7])
        = some (0, some [7, 7, 7, 7, 7, 7, 7]) :=
  ⟨by decide, C8_length_guard (secret_data "GEZDGNBVG") 5 (some [7, 7, 7, 7, 7, 7])
    (some [7, 7, 7, 7, 7, 7, 7]) (by decide)⟩

/-- C9: `otp_generate` returns 0 and leaves `out_str` as it was whenever the counter is
negative, or the length of the secret is not a multiple of 8, or the hash returns 0 on the
call it receives (the decoded secret and the counter buffer). -/
theorem C9_generate_failure (data : OTPData) (input : Int) (out_str : Option (List Nat))
    (h : input < 0 ∨ data.base32_secret.length % 8 ≠ 0 ∨
      ∀ key, otp_byte_secret data data.base32_secret.length
          (some (List.replicate (desired_secret_len data + 1) 0))
          = some (1, some key) → data.algo key (counter_buffer input) = none) :
    otp_generate data input out_str = some (0, out_str) :=
  otp_generate_exit data input out_str h

theorem C9_generate_failure_witness :
    otp_generate (secret_data "GEZDGNBVGY3TQOJQ") 7 (some [1, 2, 3, 4, 5, 6, 7, 8])
      = some (0, some [1, 2, 3, 4, 5, 6, 7, 8]) :=
  C9_generate_failure (secret_data "GEZDGNBVGY3TQOJQ") 7 (some [1, 2, 3, 4, 5, 6, 7, 8])
    (Or.inr (Or.inr (fun _ _ => rfl)))

/-- C10: for `valid_window ≥ 0` and a call in which no comparison is undefined,
`totp_verify` returns 1 if and only if `totp_comparei` returns 1 for an offset `i` of the
searched set: `i = 0` when the window is 0, and `-valid_window ≤ i ≤ valid_window - 1`
when it is positive (the offset `+valid_window` is not in the set). -/
theorem C10_searched_offsets (data : OTPData) (key : Int) (for_time : Nat)
    (valid_window : Int) (hw : 0 ≤ valid_window)
    (hdef : ∀ i : Int,
      (valid_window = 0 ∧ i = 0 ∨ 0 < valid_window ∧ -valid_window ≤ i ∧ i ≤ valid_window - 1)
        → totp_comparei data key (toSizeT i) for_time ≠ none) :
    totp_verify data key for_time valid_window = some 1 ↔
      ∃ i : Int,
        (valid_window = 0 ∧ i = 0
          ∨ 0 < valid_window ∧ -valid_window ≤ i ∧ i ≤ valid_window - 1)
        ∧ totp_comparei data key (toSizeT i) for_time = some 1 :=
  totp_verify_eq_one_iff data key for_time valid_window hw hdef

theorem C10_searched_offsets_witness :
    totp_verify (rfc_data 6) 287082 59 1 = some 1 ↔
      ∃ i : Int, ((1 : Int) = 0 ∧ i = 0 ∨ (0 : Int) < 1 ∧ -(1 : Int) ≤ i ∧ i ≤ 1 - 1)
        ∧ totp_comparei (rfc_data 6) 287082 (toSizeT i) 59 = some 1 :=
  C10_searched_offsets (rfc_data 6) 287082 59 1 (by decide) (by
    intro i hi
    have h : i = -1 ∨ i = 0 := by omega
    rcases h with h | h
    · subst h; decide
    · subst h; decide)

/-- C11: for every configuration, key and time, `totp_verify` with a negative
`valid_window` returns 0 at its first test.  The result is the same for every
configuration, also for one on which a comparison would be undefined, so neither a
comparison nor a code generation takes place. -/
theorem C11_negative_window (data : OTPData) (key : Int) (for_time : Nat)
    (valid_window : Int) (h : valid_window < 0) :
    totp_verify data key for_time valid_window = some 0 := by
  unfold totp_verify
  rw [if_pos h]

theorem C11_negative_window_witness :
    totp_comparei (rfc_data 9) 5 (toSizeT 0) 59 = none
    ∧ totp_verify (rfc_data 9) 5 59 (-1) = some 0 :=
  ⟨by decide, C11_negative_window (rfc_data 9) 5 59 (-1) (by decide)⟩

/-- C12: `otp_byte_secret` returns 0 with the output untouched when `out_str` is null or
`size` is not a multiple of 8, and only then: in every other case the call returns 1 (or
is undefined, when `size` is not the length of the secret or the buffer is too small); it
does return 1 when `size` is the length of the secret and the buffer has the
`size / 8 * 5 + 1` bytes that `otp_generate` allocates. -/
theorem C12_decoder_result (data : OTPData) (size : Nat) (out_str : Option (List Nat)) :
    (otp_byte_secret data size out_str = some (0, out_str)
      ↔ (out_str = none ∨ size % 8 ≠ 0))
    ∧ (¬ (out_str = none ∨ size % 8 ≠ 0) →
        otp_byte_secret data size out_str = none
        ∨ ∃ out1, otp_byte_secret data size out_str = some (1, some out1))
    ∧ (∀ out, out_str = some out → size = data.base32_secret.length → size % 8 = 0 →
        size / 8 * 5 + 1 ≤ out.length →
        ∃ out1, otp_byte_secret data size out_str = some (1, some out1)) := by
  have hother : ¬ (out_str = none ∨ size % 8 ≠ 0) →
      otp_byte_secret data size out_str = none
      ∨ ∃ out1, otp_byte_secret data size out_str = some (1, some out1) := by
    intro hn
    cases out_str with
    | none => exact absurd (Or.inl rfl) hn
    | some out =>
      have h8 : ¬ size % 8 ≠ 0 := fun h => hn (Or.inr h)
      unfold otp_byte_secret
      simp only [h8, if_false]
      cases otp_byte_secret_loop data.base32_secret (data.base32_secret.length / 8 + 1) 0 out with
      | none => exact Or.inl rfl
      | some out1 => exact Or.inr ⟨out1, rfl⟩
  refine ⟨⟨?_, ?_⟩, hother, ?_⟩
  · intro h
    by_contra hn
    rcases hother hn with h1 | ⟨out1, h1⟩
    · rw [h1] at h
      cases h
    · rw [h1] at h
      have := (Prod.mk.inj (Option.some.inj h)).1
      omega
  · intro h
    cases out_str with
    | none => rfl
    | some out =>
      have h8 : size % 8 ≠ 0 := by
        rcases h with h | h
        · cases h
        · exact h
      unfold otp_byte_secret
      simp only []
      rw [if_pos h8]
  · intro out ho hs h8 hlen
    subst ho
    subst hs
    obtain ⟨out1, h1, _⟩ := otp_byte_secret_defined data out h8 hlen
    exact ⟨out1, h1⟩

/-- C13 (counterexample): with an interval of 1 second the time `2^31` has the quotient
`2^31`, which does not fit the `int` that `totp_timecode` returns: the returned value is
`-2^31`. -/
theorem C13_counterexample :
    2147483648 < 4294967296 ∧ 0 < (interval_data 1).interval
    ∧ 2147483648 / (interval_data 1).interval = 2147483648
    ∧ totp_timecode (interval_data 1) 2147483648 = -2147483648 := by
  decide

/-- C13 (amended): for an unsigned 32-bit time `t`, `totp_timecode` returns 0 when the
interval is 0; for a positive interval it returns `floor(t / interval)` when that quotient
is below `2^31`, which is the case for every interval of 2 or more, and the quotient minus
`2^32` otherwise (the conversion of the quotient to `int`). -/
theorem C13_timecode (data : OTPData) (t : Nat) (ht : t < 4294967296) :
    (data.interval = 0 → totp_timecode data t = 0)
    ∧ (0 < data.interval → t / data.interval < 2147483648 →
        totp_timecode data t = ((t / data.interval : Nat) : Int))
    ∧ (2 ≤ data.interval → totp_timecode data t = ((t / data.interval : Nat) : Int))
    ∧ (0 < data.interval → 2147483648 ≤ t / data.interval →
        totp_timecode data t = ((t / data.interval : Nat) : Int) - 4294967296) := by
  refine ⟨?_, ?_, ?_, ?_⟩
  · intro h0
    unfold totp_timecode
    rw [if_pos (by omega)]
  · intro hi hq
    exact totp_timecode_eq data t hi hq
  · intro hi
    exact totp_timecode_eq data t (by omega) (div_lt_of_two_le t _ ht hi)
  · intro hi hq
    have hle : t / data.interval ≤ t := Nat.div_le_self _ _
    have hlt : t / data.interval < 4294967296 := by omega
    unfold totp_timecode
    rw [if_neg (by omega)]
    exact toInt32_of_ge _ (by exact_mod_cast hq) (by exact_mod_cast hlt)

theorem C13_timecode_witness :
    ((rfc_data 6).interval = 0 → totp_timecode (rfc_data 6) 59 = 0)
    ∧ (0 < (rfc_data 6).interval → 59 / (rfc_data 6).interval < 2147483648 →
        totp_timecode (rfc_data 6) 59 = ((59 / (rfc_data 6).interval : Nat) : Int))
    ∧ (2 ≤ (rfc_data 6).interval →
        totp_timecode (rfc_data 6) 59 = ((59 / (rfc_data 6).interval : Nat) : Int))
    ∧ (0 < (rfc_data 6).interval → 2147483648 ≤ 59 / (rfc_data 6).interval →
        totp_timecode (rfc_data 6) 59
          = ((59 / (rfc_data 6).interval : Nat) : Int) - 4294967296) :=
  C13_timecode (rfc_data 6) 59 (by decide)

/-- C14 (counterexample): with a 30 second interval the time 1 lies in step 0, and the
time `1 + 30 - 1 = 30` lies in step 1. -/
theorem C14_counterexample :
    0 < (rfc_data 6).interval
    ∧ totp_timecode (rfc_data 6) 1 = 0
    ∧ totp_timecode (rfc_data 6) (1 + (rfc_data 6).interval - 1) = 1 := by
  decide

/-- C14 (amended): for a positive interval and a time `t` that is a multiple of the
interval (the first second of a time step), with `t + interval - 1` still an unsigned
32-bit time, `totp_timecode(t)` equals `totp_timecode(t + interval - 1)`. -/
theorem C14_step_start (data : OTPData) (t : Nat) (hi : 0 < data.interval)
    (hm : t % data.interval = 0) (hfit : t + data.interval - 1 < 4294967296) :
    totp_timecode data t = totp_timecode data ((t + data.interval - 1) % 4294967296) := by
  have hq : (t + data.interval - 1) / data.interval = t / data.interval := by
    obtain ⟨q, hq⟩ := Nat.dvd_of_mod_eq_zero hm
    subst hq
    rw [Nat.mul_div_cancel_left _ hi]
    have e : data.interval * q + data.interval - 1 = (data.interval - 1) + data.interval * q := by
      omega
    rw [e, Nat.add_mul_div_left _ _ hi, Nat.div_eq_of_lt (by omega)]
    omega
  unfold totp_timecode
  rw [Nat.mod_eq_of_lt hfit, hq]

theorem C14_step_start_witness :
    totp_timecode (rfc_data 6) 60
      = totp_timecode (rfc_data 6) ((60 + (rfc_data 6).interval - 1) % 4294967296) :=
  C14_step_start (rfc_data 6) 60 (by decide) (by decide) (by decide)

/-- C15 (counterexample): with an interval of 1 second the times `2^31 - 1` and `2^31` are
in order, but the returned `int`s are `2^31 - 1` and `-2^31`. -/
theorem C15_counterexample :
    0 < (interval_data 1).interval ∧ 2147483647 ≤ 2147483648 ∧ 2147483648 < 4294967296
    ∧ totp_timecode (interval_data 1) 2147483647 = 2147483647
    ∧ totp_timecode (interval_data 1) 2147483648 = -2147483648
    ∧ ¬ (totp_timecode (interval_data 1) 2147483647
        ≤ totp_timecode (interval_data 1) 2147483648) := by
  decide

/-- C15 (amended): for a positive interval and unsigned 32-bit times `t1 ≤ t2` such that
`floor(t2 / interval)` is below `2^31`, which holds for every interval of 2 or more, the
`int` returned for `t1` is at most the `int` returned for `t2`. -/
theorem C15_monotone (data : OTPData) (t1 t2 : Nat) (hi : 0 < data.interval)
    (h12 : t1 ≤ t2) (h2 : t2 < 4294967296)
    (hq : t2 / data.interval < 2147483648 ∨ 2 ≤ data.interval) :
    totp_timecode data t1 ≤ totp_timecode data t2 := by
  have hq2 : t2 / data.interval < 2147483648 := by
    rcases hq with h | h
    · exact h
    · exact div_lt_of_two_le t2 _ h2 h
  have hle : t1 / data.interval ≤ t2 / data.interval := Nat.div_le_div_right h12
  rw [totp_timecode_eq data t1 hi (by omega), totp_timecode_eq data t2 hi hq2]
  omega

theorem C15_monotone_witness :
    totp_timecode (rfc_data 6) 59 ≤ totp_timecode (rfc_data 6) 4294967295 :=
  C15_monotone (rfc_data 6) 59 4294967295 (by decide) (by decide) (by decide)
    (Or.inr (by decide))

/-- C16: for a digest `d` of `bits/8` bytes with `bits/8` at least 20 (and an `int`),
whatever the bytes are, the byte `d[bits/8 - 1]` that gives the offset lies in the digest,
the offset `o = d[bits/8 - 1] & 0x0F` is at most 15, `o + 3 < bits/8`, the four cells
`d[o] .. d[o+3]` exist, and the truncation of `otp_generate` on the digest buffer is
defined and is computed from these four cells. -/
theorem C16_truncation_in_bounds (data : OTPData) (d rest : List Nat)
    (hbits : 20 ≤ data.bits / 8 ∧ data.bits / 8 < 2147483648)
    (hlen : d.length = data.bits / 8) :
    d[data.bits / 8 - 1]? = some (d.getD (data.bits / 8 - 1) 0)
    ∧ (d.getD (data.bits / 8 - 1) 0 &&& 0xF) ≤ 15
    ∧ (d.getD (data.bits / 8 - 1) 0 &&& 0xF) + 3 < data.bits / 8
    ∧ (∀ j, j ≤ 3 → d[(d.getD (data.bits / 8 - 1) 0 &&& 0xF) + j]?
        = some (d.getD ((d.getD (data.bits / 8 - 1) 0 &&& 0xF) + j) 0))
    ∧ truncate (d ++ rest) (bit_size data) =
      some ((d.getD (d.getD (data.bits / 8 - 1) 0 &&& 0xF) 0 &&& 0x7F) <<< 24
        ||| (d.getD ((d.getD (data.bits / 8 - 1) 0 &&& 0xF) + 1) 0 &&& 0xFF) <<< 16
        ||| (d.getD ((d.getD (data.bits / 8 - 1) 0 &&& 0xF) + 2) 0 &&& 0xFF) <<< 8
        ||| (d.getD ((d.getD (data.bits / 8 - 1) 0 &&& 0xF) + 3) 0 &&& 0xFF)) := by
  have ho : d.getD (data.bits / 8 - 1) 0 &&& 0xF ≤ 0xF := Nat.and_le_right
  refine ⟨getElem?_eq_some_getD d _ (by omega), ho, by omega, ?_, ?_⟩
  · intro j hj
    exact getElem?_eq_some_getD d _ (by omega)
  · rw [bit_size_eq data hbits.2, ← hlen]
    exact truncate_reads d rest (by omega)

theorem C16_truncation_in_bounds_witness :
    ([0x54, 0x3c, 0x61, 0xf8, 0xf9, 0xae, 0xb3, 0x5f, 0x6d, 0xbc,
      0x3a, 0x68, 0x47, 0xc3, 0xfe, 0x28, 0x8c, 0xc0, 0xee, 0x4c].getD
        ((rfc_data 6).bits / 8 - 1) 0 &&& 0xF) + 3 < (rfc_data 6).bits / 8 :=
  (C16_truncation_in_bounds (rfc_data 6)
    [0x54, 0x3c, 0x61, 0xf8, 0xf9, 0xae, 0xb3, 0x5f, 0x6d, 0xbc,
     0x3a, 0x68, 0x47, 0xc3, 0xfe, 0x28, 0x8c, 0xc0, 0xee, 0x4c] [0]
    (by decide) (by decide)).2.2.1

/-- C17: for `digits` in 1..7, if `hotp_verify` returns 1 for a key and a counter, then
the key is non-negative and is the code that `otp_generate` returns for that counter
(converted to its `int` parameter). -/
theorem C17_verify_sound (data : OTPData) (key : Int) (counter : Nat)
    (hd : 1 ≤ data.digits ∧ data.digits ≤ 7)
    (h : hotp_verify data key counter = some 1) :
    0 ≤ key ∧ otp_generate data (toInt32 counter) none = some (key, none) := by
  unfold hotp_verify hotp_comparei at h
  cases hw : writeStr (List.replicate 8 0) (sprintf_d key) with
  | none => rw [hw] at h; cases h
  | some key_str =>
    rw [hw] at h
    simp only [] at h
    have hkl : key_str.length = 8 := by
      rw [writeStr_length _ _ _ hw, List.length_replicate]
    obtain ⟨_, hks⟩ := writeStr_inv _ _ _ hw
    obtain ⟨code, rest, _, hc0, hgen, hkey⟩ :=
      hotp_compares_one_inv data key_str counter hd.1 hkl h
    have htext : sprintf_d key = sprintf_0Nd data.digits code := by
      rw [hks] at hkey
      exact text_eq_of_buffer_eq _ _ _ _ (sprintf_d_nonzero key)
        (fun c hcm => by have := sprintf_0Nd_digits _ _ hc0 c hcm; omega) hkey
    have hk0 : 0 ≤ key := by
      by_contra hneg
      have hm : 45 ∈ sprintf_d key := by
        unfold sprintf_d
        rw [if_pos (by omega)]
        exact List.mem_cons_self _ _
      rw [htext] at hm
      have := sprintf_0Nd_digits _ _ hc0 45 hm
      omega
    have hval : (decimal_value (sprintf_d key) : Int)
        = (decimal_value (sprintf_0Nd data.digits code) : Int) := by rw [htext]
    rw [decimal_value_sprintf_d _ hk0, decimal_value_sprintf_0Nd _ _ hc0] at hval
    rw [hval]
    exact ⟨hc0, hgen⟩

theorem C17_verify_sound_witness :
    (0 : Int) ≤ 755224
    ∧ otp_generate (rfc_data 6) (toInt32 ((0 : Nat) : Int)) none = some (755224, none) :=
  C17_verify_sound (rfc_data 6) 755224 0 (by decide) (by decide)

/-- C18: for a secret of characters `A-Z`/`2-7` whose length is a multiple of 8 and in
which the 8th character of every block but the last is one of `F-Z` or `2-7`,
`otp_byte_secret`, given a buffer of `length / 8 * 5 + 1` bytes or more, returns 1 and
leaves in the first `length / 8 * 5` bytes the RFC 4648 decoding of the whole secret. -/
theorem C18_decode_full_secret (data : OTPData) (out : List Nat)
    (hchars : ∀ c ∈ data.base32_secret, (65 ≤ c ∧ c ≤ 90) ∨ (50 ≤ c ∧ c ≤ 55))
    (h8 : data.base32_secret.length % 8 = 0)
    (hgood : ∀ b, (b + 1) * 8 < data.base32_secret.length →
      (70 ≤ data.base32_secret.getD (b * 8 + 7) 0 ∧ data.base32_secret.getD (b * 8 + 7) 0 ≤ 90)
      ∨ (50 ≤ data.base32_secret.getD (b * 8 + 7) 0
        ∧ data.base32_secret.getD (b * 8 + 7) 0 ≤ 55))
    (hout : data.base32_secret.length / 8 * 5 + 1 ≤ out.length) :
    ∃ bytes rest, rfc4648_decode data.base32_secret = some bytes
      ∧ bytes.length = data.base32_secret.length / 8 * 5
      ∧ otp_byte_secret data data.base32_secret.length (some out)
        = some (1, some (bytes ++ rest)) := by
  have hl : data.base32_secret.length = 8 * (data.base32_secret.length / 8) := by omega
  obtain ⟨bytes, hdec, hbl⟩ := rfc4648_decode_total _ data.base32_secret hl hchars
  have hval : ∀ b v, (b + 1) * 8 < data.base32_secret.length →
      base32_value (data.base32_secret.getD (b * 8 + 7) 0) = some v → 5 ≤ v := by
    intro b v hb hv
    have hc := hgood b hb
    unfold base32_value at hv
    by_cases h1 : 65 ≤ data.base32_secret.getD (b * 8 + 7) 0
        ∧ data.base32_secret.getD (b * 8 + 7) 0 ≤ 90
    · rw [if_pos h1] at hv
      have := Option.some.inj hv
      omega
    · rw [if_neg h1, if_pos (by omega)] at hv
      have := Option.some.inj hv
      omega
  obtain ⟨rest, hloop⟩ := otp_byte_secret_loop_decode (data.base32_secret.length / 8)
    data.base32_secret [] [] out bytes 0 (data.base32_secret.length / 8 + 1) hl rfl rfl hdec
    hval (le_refl _) (by omega)
  simp only [List.nil_append] at hloop
  refine ⟨bytes, rest, hdec, by omega, ?_⟩
  unfold otp_byte_secret
  simp only [ne_eq, h8, not_true_eq_false, if_false, hloop]

theorem C18_decode_full_secret_witness :
    (∃ bytes rest, rfc4648_decode (secret_data "GEZDGNBVGY3TQOJQ").base32_secret = some bytes
      ∧ bytes.length = (secret_data "GEZDGNBVGY3TQOJQ").base32_secret.length / 8 * 5
      ∧ otp_byte_secret (secret_data "GEZDGNBVGY3TQOJQ")
          (secret_data "GEZDGNBVGY3TQOJQ").base32_secret.length (some (List.replicate 11 0))
        = some (1, some (bytes ++ rest)))
    ∧ rfc4648_decode (secret_data "GEZDGNBVGY3TQOJQ").base32_secret
      = some (bytesOf "1234567890")
    ∧ otp_byte_secret (secret_data "GEZDGNBVGY3TQOJQ") 16 (some (List.replicate 11 0))
      = some (1, some (bytesOf "1234567890" ++ [0])) :=
  ⟨C18_decode_full_secret (secret_data "GEZDGNBVGY3TQOJQ") (List.replicate 11 0)
    (by decide) (by decide) (by
      intro b hb
      have h0 : b = 0 := by
        have hl : (secret_data "GEZDGNBVGY3TQOJQ").base32_secret.length = 16 := by decide
        omega
      subst h0
      decide) (by decide), by decide, by decide⟩

/-- C19: for a secret whose length `L` is a multiple of 8, whatever its characters, and a
buffer of `L / 8 * 5 + 1` bytes, the outer loop of `otp_byte_secret` ends within
`L / 8 + 1` iterations (more fuel does not change the result) with every access in bounds:
a read of the secret past index `L` or a store past index `L / 8 * 5` would make the
result `none`.  This is the buffer that `otp_generate` allocates, whose decode returns
1. -/
theorem C19_decoder_terminates (data : OTPData) (out : List Nat)
    (h8 : data.base32_secret.length % 8 = 0)
    (hout : out.length = data.base32_secret.length / 8 * 5 + 1) :
    (∃ out1, otp_byte_secret_loop data.base32_secret (data.base32_secret.length / 8 + 1) 0 out
        = some out1 ∧ out1.length = out.length)
    ∧ (∀ fuel, data.base32_secret.length / 8 + 1 ≤ fuel →
        otp_byte_secret_loop data.base32_secret fuel 0 out
          = otp_byte_secret_loop data.base32_secret (data.base32_secret.length / 8 + 1) 0 out)
    ∧ (∀ i, data.base32_secret.length < i → readSecret data.base32_secret i = none)
    ∧ (∀ i v, data.base32_secret.length / 8 * 5 < i → writeByte out i v = none)
    ∧ (∃ key, otp_byte_secret data data.base32_secret.length
        (some (List.replicate (desired_secret_len data + 1) 0)) = some (1, some key)
        ∧ key.length = data.base32_secret.length / 8 * 5 + 1) := by
  refine ⟨?_, ?_, ?_, ?_, ?_⟩
  · exact otp_byte_secret_loop_defined data.base32_secret h8 _ 0 out (by omega) (by omega)
      (by omega)
  · intro fuel hf
    exact otp_byte_secret_loop_fuel data.base32_secret fuel _ 0 out (by omega) (by omega)
  · intro i hi
    unfold readSecret
    exact List.getElem?_eq_none
      (by simp only [List.length_append, List.length_singleton]; omega)
  · intro i v hi
    unfold writeByte
    rw [if_neg (by omega)]
  · obtain ⟨key, hk, hl⟩ := otp_generate_decode data h8
    exact ⟨key, hk, by rw [hl]; rfl⟩

theorem C19_decoder_terminates_witness :
    ∃ out1, otp_byte_secret_loop (secret_data "MFRGG===GEZDGNBV").base32_secret
        ((secret_data "MFRGG===GEZDGNBV").base32_secret.length / 8 + 1) 0
        (List.replicate 11 7) = some out1 ∧ out1.length = (List.replicate 11 7).length :=
  (C19_decoder_terminates (secret_data "MFRGG===GEZDGNBV") (List.replicate 11 7)
    (by decide) (by decide)).1

/-- C20: let `digits` be in 1..7.  When the code generated for the counter is 0 (and the
decimal text of the counter fits the 8-byte buffer), `hotp_compares` returns 0 for every
candidate text and `hotp_verify` returns 0 for every key whose `%d` text fits its 8-byte
buffer; when the code generated for the time step is 0, `totp_compares` returns 0 for
every candidate text, and `totp_comparei` and `totp_verify` with window 0 return 0 for
every such key. -/
theorem C20_zero_code_rejected (data : OTPData) (counter increment for_time : Nat)
    (hd : 1 ≤ data.digits ∧ data.digits ≤ 7) :
    (otp_generate data (toInt32 counter) none = some (0, none) →
      (sprintf_u counter).length ≤ 7 →
        (∀ key, hotp_compares data key counter = some 0)
        ∧ (∀ key : Int, (sprintf_d key).length ≤ 7 → hotp_verify data key counter = some 0))
    ∧ (otp_generate data (totp_counter data for_time increment) none = some (0, none) →
        (∀ key, totp_compares data key increment for_time = some 0)
        ∧ (∀ key : Int, (sprintf_d key).length ≤ 7 →
            totp_comparei data key increment for_time = some 0))
    ∧ (otp_generate data (totp_counter data for_time (toSizeT 0)) none = some (0, none) →
        ∀ key : Int, (sprintf_d key).length ≤ 7 →
          totp_verify data key for_time 0 = some 0) := by
  have hh : otp_generate data (toInt32 counter) none = some (0, none) →
      (sprintf_u counter).length ≤ 7 → ∀ key, hotp_compares data key counter = some 0 := by
    intro hg hc key
    obtain ⟨out1, h1⟩ := otp_generate_some_of_none data (toInt32 counter)
      (sprintf_u counter ++ 0 :: (List.replicate 8 0).drop ((sprintf_u counter).length + 1)) 0
      hd.1 (by rw [text_buffer_length _ hc]; omega) hg
    unfold hotp_compares hotp_at
    rw [writeStr_some _ _ (by simp only [List.length_replicate]; omega)]
    simp only []
    rw [h1]
    simp only [if_true]
  have ht : ∀ incr, otp_generate data (totp_counter data for_time incr) none = some (0, none) →
      ∀ key, totp_compares data key incr for_time = some 0 := by
    intro incr hg key
    obtain ⟨out1, h1⟩ := otp_generate_some_of_none data (totp_counter data for_time incr)
      (List.replicate 8 0) 0 hd.1 (by simp only [List.length_replicate]; omega) hg
    unfold totp_compares totp_at
    rw [h1]
    simp only [if_true]
  have hti : ∀ incr, otp_generate data (totp_counter data for_time incr) none = some (0, none) →
      ∀ key : Int, (sprintf_d key).length ≤ 7 →
        totp_comparei data key incr for_time = some 0 := by
    intro incr hg key hk
    unfold totp_comparei
    rw [writeStr_some _ _ (by simp only [List.length_replicate]; omega)]
    exact ht incr hg _
  refine ⟨?_, ?_, ?_⟩
  · intro hg hc
    refine ⟨hh hg hc, ?_⟩
    intro key hk
    unfold hotp_verify hotp_comparei
    rw [writeStr_some _ _ (by simp only [List.length_replicate]; omega)]
    exact hh hg hc _
  · intro hg
    exact ⟨ht increment hg, hti increment hg⟩
  · intro hg key hk
    unfold totp_verify
    rw [if_neg (by omega), if_neg (by omega)]
    exact hti _ hg key hk

theorem C20_zero_code_rejected_witness :
    otp_generate (rfc_data 1) 30 (some (List.replicate 8 0))
      = some (0, some (bytesOf "0" ++ [0, 0, 0, 0, 0, 0, 0]))
    ∧ hotp_compares (rfc_data 1) (bytesOf "0" ++ [0, 0, 0, 0, 0, 0, 0]) 30 = some 0
    ∧ hotp_verify (rfc_data 1) 0 30 = some 0
    ∧ totp_verify (rfc_data 1) 0 900 0 = some 0 :=
  ⟨by decide,
    ((C20_zero_code_rejected (rfc_data 1) 30 0 900 (by decide)).1 (by decide) (by decide)).1 _,
    ((C20_zero_code_rejected (rfc_data 1) 30 0 900 (by decide)).1 (by decide) (by decide)).2 0
      (by decide),
    (C20_zero_code_rejected (rfc_data 1) 30 0 900 (by decide)).2.2 (by decide) 0 (by decide)⟩

end COTP
